import Mathlib

/-!
Verification of egrath/mandelbrot: the escape-time evaluator and the two render loops.

Shallow embedding of `mandelbrot.c` (text console variant, namespace `mandelbrot`)
and of `src/MANDEL.C` (BGI graphics variant, namespace `MANDEL`).

Modelling decisions, all visible in the definitions below:

* In `func1`, in the moduli and in the iteration loops `double` is an arbitrary linearly
  ordered field `K`: exact arithmetic, no rounding, no infinities, no NaN.  The decimal
  literals of the source (`0.04`, `0.10`, `-1.6`, ...) are the corresponding exact field
  elements.  The general statements proved on these definitions use nothing but the
  comparison each loop makes on its own iterates and the sign symmetry of the arithmetic;
  statements about values are made for concrete constants only.  Properties that depend
  on the rounding of `double` arithmetic (exactness of `func1`, the value of the rounded
  square root, overflow) are not expressed in this embedding.
* `sqrt` of `<math.h>` is not part of the repository; every definition that
  calls it takes it as the parameter `sqrt : K → K`.  Statements that need
  facts about square roots instantiate `K := ℝ` and `sqrt := Real.sqrt`.
* `int` is `Int`; the counters of the programs stay far below the range of a
  machine `int`, so no wrap-around is modelled.
* `stdout` is the list of characters written so far; the BGI screen is the list
  of `graphics_plot_pixel` calls made so far.
* The `for` loops over the `int` counter `iter` (at most 100 passes) recurse on
  the number of passes that remain.  The `for` loops over the `double`
  variables `x` and `y` have no such bound in their header, so they recurse on
  an explicit fuel and answer `none` when it runs out.
* The render loops come twice.  `main_row`, `main_rows` and `main` take the counters `x`
  and `y` in the exact field `K`.  `main_row64`, `main_rows64` and `main64` take them as
  IEEE 754 binary64 values, kept as integer multiples of a power of two (`2^-57` for
  `mandelbrot.c`, `2^-112` for `MANDEL.C`), with every `+=` rounded by `round53` and the
  steps of `MANDEL.C` divided by `quot53`; the number of passes of the loops and the
  constants they sample are stated on these.  The evaluation of a sampled constant is in
  both cases the exact one of the first item.
* `Locals`, `body_iter`, `main_body` and `run_body` are the loop bodies acting on the
  variables of `main`, which keep their values from one pixel to the next.
* Ghost fields (`terms`, `sampled`) record what the loops computed; they have no
  influence on the results.
-/

/-- The `struct cplx` of both source files: a real and an imaginary component. -/
structure cplx (K : Type) where
  r : K
  i : K

/-- The local variables `r`, `div`, `iter` of `main` while the iteration loop runs,
together with the ghost list `terms` of the values `func1` has returned so far. -/
structure IterState (K : Type) where
  r : cplx K
  div : Int
  iter : Int
  terms : List (cplx K)

/-- The number of binary digits of `a` beyond the first 53; `fuel` bounds the number of
halvings, and `fuel = a` is always enough. -/
def excess53 : Nat → Nat → Nat
  | 0, _ => 0
  | fuel + 1, a => if a < 2 ^ 53 then 0 else excess53 fuel (a / 2) + 1

/-- Rounding of IEEE 754 binary64 (the C type `double`), for values that are integer
multiples of a fixed power of two, the counter unit: the integer `n` rounded to 53
significant binary digits, to the nearest such value, a tie going to the even significand.
The sum of two doubles that are multiples of the unit is `round53` of the exact sum; the
loop counters stay below `4` in absolute value, so neither overflow nor subnormal numbers
occur. -/
def round53 (n : Int) : Int :=
  let a : Nat := n.natAbs
  let drop : Nat := excess53 a a
  let q : Nat := a / 2 ^ drop
  let rem : Nat := a % 2 ^ drop
  let m : Nat :=
    if 2 ^ drop < 2 * rem ∨ (2 * rem = 2 ^ drop ∧ q % 2 = 1) then q + 1 else q
  if n < 0 then -((m * 2 ^ drop : Nat) : Int) else ((m * 2 ^ drop : Nat) : Int)

/-- Division of IEEE 754 binary64 for a dividend `a` and a divisor `b` that are integer
multiples of the counter unit and an integer: the quotient `a / b` rounded to 53 significant
binary digits, to the nearest such value, a tie going to the even significand.  The result
is the double quotient whenever that quotient is at least `2^52` units, which holds for
the step widths of every device (`b < 2^31`) with the unit `2^-112`; `b = 0` does not
occur, `getmaxx()+1` and `getmaxy()+1` being positive. -/
def quot53 (a b : Int) : Int :=
  let n : Nat := a.natAbs
  let d : Nat := b.natAbs
  let q : Nat := n / d
  let drop : Nat := excess53 q q
  let m : Nat := q / 2 ^ drop
  let rest : Nat := (q % 2 ^ drop) * d + n % d
  let m1 : Nat :=
    if 2 ^ drop * d < 2 * rest ∨ (2 * rest = 2 ^ drop * d ∧ m % 2 = 1) then m + 1 else m
  if (a < 0) = (b < 0) then ((m1 * 2 ^ drop : Nat) : Int) else -((m1 * 2 ^ drop : Nat) : Int)

namespace mandelbrot

variable {K : Type} [LinearOrderedField K]

/-- The function `func1` of `mandelbrot.c` (lines 36-53), statement by statement. -/
def func1 (c1 c2 : cplx K) : cplx K :=
  let r0 : K := c1.r * c1.r
  let i0 : K := c1.r * c1.i + c1.i * c1.r
  let r1 : K := r0 + c1.i * c1.i * (-1)
  let r2 : K := r1 + c2.r
  let i1 : K := i0 + c2.i
  { r := r2, i := i1 }

/-- The function `modulus_complex` of `mandelbrot.c` (lines 55-61). -/
def modulus_complex (sqrt : K → K) (c : cplx K) : K :=
  sqrt (c.r * c.r + c.i * c.i)

/-- The loop `for(iter=0;iter<100;iter++)` of `main` (lines 103-113); the first
argument is the number of passes that remain. -/
def main_iter (sqrt : K → K) (c2 : cplx K) : Nat → IterState K → IterState K
  | 0, s => s
  | n + 1, s =>
    let r := func1 s.r c2
    if modulus_complex sqrt r > 100 then
      { r := r, div := s.iter, iter := s.iter, terms := s.terms ++ [r] }
    else
      main_iter sqrt c2 n { r := r, div := s.div, iter := s.iter + 1, terms := s.terms ++ [r] }

/-- Lines 99-113 of `main`: `r=c1; int div=0, iter=0;` followed by the iteration loop. -/
def main_eval (sqrt : K → K) (c2 : cplx K) : IterState K :=
  main_iter sqrt c2 100 { r := { r := 0, i := 0 }, div := 0, iter := 0, terms := [] }

/-- The `if`/`else if` chain of `main` (lines 117-126): the character printed for `div`. -/
def main_symbol (div : Int) : Char :=
  if div = 0 then ' '
  else if div > 0 ∧ div ≤ 25 then '.'
  else if div > 25 ∧ div ≤ 50 then ':'
  else if div > 50 ∧ div ≤ 75 then '*'
  else '@'

/-- The body of the inner `for` loop of `main` for one sampled constant: the
character it writes. -/
def main_pixel (sqrt : K → K) (c2 : cplx K) : Char :=
  main_symbol (main_eval sqrt c2).div

/-- What the text program has done so far: the characters written to `stdout`
and the ghost list of the constants `c2` it has sampled. -/
structure Console (K : Type) where
  out : List Char
  sampled : List (cplx K)

/-- The loop `for(x=-2;x<2;x+=0.04)` of `main` (lines 92-127) for the row `y`, with the
counter `x` in the exact field `K`. -/
def main_row (sqrt : K → K) (y : K) : Nat → K → Console K → Option (Console K)
  | 0, _, _ => none
  | fuel + 1, x, o =>
    if x < 2 then
      let c2 : cplx K := { r := x, i := y }
      main_row sqrt y fuel (x + 0.04)
        { out := o.out ++ [main_pixel sqrt c2], sampled := o.sampled ++ [c2] }
    else some o

/-- The loop `for(y=-2;y<2;y+=0.10)` of `main` (lines 90-129), with the counter `y` in
the exact field `K`; `fuel` is handed to every row. -/
def main_rows (sqrt : K → K) (fuel : Nat) : Nat → K → Console K → Option (Console K)
  | 0, _, _ => none
  | f + 1, y, o =>
    if y < 2 then
      match main_row sqrt y fuel (-2) o with
      | none => none
      | some o1 => main_rows sqrt fuel f (y + 0.10) { o1 with out := o1.out ++ ['\n'] }
    else some o

/-- The function `main` of `mandelbrot.c`: the console after the two nested loops, with
the counters in the exact field `K`. -/
def main (sqrt : K → K) (fuel : Nat) : Option (Console K) :=
  main_rows sqrt fuel fuel (-2) { out := [], sampled := [] }

/-- The variables of `main` of `mandelbrot.c` that the body of the pixel loops reads and
writes.  `c1`, `c2` and `r` (line 77) keep their values from one pass to the next; `div`
and `iter` (line 102) are declared inside the body. -/
structure Locals (K : Type) where
  c1 : cplx K
  c2 : cplx K
  r : cplx K
  div : Int
  iter : Int

/-- Line 79 of `main`, `c1.r=c1.i=0;`: the only assignment to `c1`, made before the loops. -/
def main_init (v : Locals K) : Locals K :=
  { v with c1 := { r := 0, i := 0 } }

/-- The loop `for(iter=0;iter<100;iter++)` of `main` (lines 103-113) acting on the variables
themselves; the first argument is the number of passes that remain. -/
def body_iter (sqrt : K → K) : Nat → Locals K → Locals K
  | 0, v => v
  | n + 1, v =>
    let v1 : Locals K := { v with r := func1 v.r v.c2 }
    if modulus_complex sqrt v1.r > 100 then
      { v1 with div := v1.iter }
    else
      body_iter sqrt n { v1 with iter := v1.iter + 1 }

/-- The body of the inner `for` loop of `main` (lines 97-126) for the coordinates `x` and
`y`, run on the variables as the previous pass left them: `c2.r=x; c2.i=y; r=c1;
int div=0, iter=0;`, the iteration loop and the `if`/`else if` chain.  The result is the
variables afterwards and the character written. -/
def main_body (sqrt : K → K) (x y : K) (v : Locals K) : Locals K × Char :=
  let v1 : Locals K := { v with c2 := { r := x, i := v.c2.i } }
  let v2 : Locals K := { v1 with c2 := { r := v1.c2.r, i := y } }
  let v3 : Locals K := { v2 with r := v2.c1 }
  let v4 : Locals K := { v3 with div := 0, iter := 0 }
  let v5 : Locals K := body_iter sqrt 100 { v4 with iter := 0 }
  (v5, main_symbol v5.div)

/-- Passes of the loop body over the coordinates of the list, in order, each pass starting
on the variables the previous one left; the characters are appended to `out`. -/
def run_body (sqrt : K → K) : List (K × K) → Locals K → List Char → Locals K × List Char
  | [], v, out => (v, out)
  | p :: rest, v, out =>
    run_body sqrt rest (main_body sqrt p.1 p.2 v).1 (out ++ [(main_body sqrt p.1 p.2 v).2])

/-- The number of counter units in `1`: the counters `x` and `y` are kept as integer
multiples of `2^-57`. -/
def unit64 : Int := 144115188075855872

/-- The literal `0.04` of `x+=0.04` as a double, `0x1.47AE147AE147Bp-5`, in counter units. -/
def step_x64 : Int := 5764607523034235

/-- The literal `0.10` of `y+=0.10` as a double, `0x1.999999999999Ap-4`, in counter units. -/
def step_y64 : Int := 14411518807585588

/-- The loop `for(x=-2;x<2;x+=0.04)` of `main` (lines 92-127) for the row `y`, with the
counters `x` and `y` as doubles (in counter units). -/
def main_row64 (sqrt : K → K) (y : Int) : Nat → Int → Console K → Option (Console K)
  | 0, _, _ => none
  | fuel + 1, x, o =>
    if x < 2 * unit64 then
      let c2 : cplx K := { r := (x : K) / (unit64 : K), i := (y : K) / (unit64 : K) }
      main_row64 sqrt y fuel (round53 (x + step_x64))
        { out := o.out ++ [main_pixel sqrt c2], sampled := o.sampled ++ [c2] }
    else some o

/-- The loop `for(y=-2;y<2;y+=0.10)` of `main` (lines 90-129) with the counters as doubles;
`fuel` is handed to every row. -/
def main_rows64 (sqrt : K → K) (fuel : Nat) : Nat → Int → Console K → Option (Console K)
  | 0, _, _ => none
  | f + 1, y, o =>
    if y < 2 * unit64 then
      match main_row64 sqrt y fuel (-2 * unit64) o with
      | none => none
      | some o1 =>
        main_rows64 sqrt fuel f (round53 (y + step_y64)) { o1 with out := o1.out ++ ['\n'] }
    else some o

/-- The function `main` of `mandelbrot.c` with the loop counters `x` and `y` as doubles. -/
def main64 (sqrt : K → K) (fuel : Nat) : Option (Console K) :=
  main_rows64 sqrt fuel fuel (-2 * unit64) { out := [], sampled := [] }

end mandelbrot

namespace MANDEL

variable {K : Type} [LinearOrderedField K]

/-- The macro `XFROM`, defined as `-1.6`. -/
def XFROM : K := -1.6
/-- The macro `XTO`, defined as `0.5`. -/
def XTO : K := 0.5
/-- The macro `YFROM`, defined as `1.1`. -/
def YFROM : K := 1.1
/-- The macro `YTO`, defined as `-1.1`. -/
def YTO : K := -1.1
/-- The macro `MAXITERATIONS`, defined as `100`. -/
def MAXITERATIONS : Nat := 100
/-- The macro `CONVLIMIT`, defined as `100`. -/
def CONVLIMIT : K := 100

/-- The function `func1` of `MANDEL.C` (lines 53-70), statement by statement. -/
def func1 (c1 c2 : cplx K) : cplx K :=
  let r0 : K := c1.r * c1.r
  let i0 : K := c1.r * c1.i + c1.i * c1.r
  let r1 : K := r0 + c1.i * c1.i * (-1)
  let r2 : K := r1 + c2.r
  let i1 : K := i0 + c2.i
  { r := r2, i := i1 }

/-- The function `cplx_modulus` of `MANDEL.C` (lines 72-78). -/
def cplx_modulus (sqrt : K → K) (c : cplx K) : K :=
  sqrt (c.r * c.r + c.i * c.i)

/-- The loop `for(iter=0;iter<MAXITERATIONS;iter++)` of `main` (lines 171-181); the
first argument is the number of passes that remain. -/
def main_iter (sqrt : K → K) (c2 : cplx K) : Nat → IterState K → IterState K
  | 0, s => s
  | n + 1, s =>
    let r := func1 s.r c2
    let modulus := cplx_modulus sqrt r
    if modulus ≥ CONVLIMIT then
      { r := r, div := 1, iter := s.iter, terms := s.terms ++ [r] }
    else
      main_iter sqrt c2 n { r := r, div := s.div, iter := s.iter + 1, terms := s.terms ++ [r] }

/-- Lines 165-181 of `main`: `r=c1; div=0;` followed by the iteration loop. -/
def main_eval (sqrt : K → K) (c2 : cplx K) : IterState K :=
  main_iter sqrt c2 MAXITERATIONS
    { r := { r := 0, i := 0 }, div := 0, iter := 0, terms := [] }

/-- What the graphics program has done so far: the `graphics_plot_pixel` calls as
triples `(x, y, color)`, and the ghost list of the samples `(pixel_x, pixel_y, c2)`
the loops have evaluated. -/
structure Screen (K : Type) where
  plots : List (Int × Int × Int)
  sampled : List (Int × Int × cplx K)

/-- The function `graphics_plot_pixel` (lines 119-122): one `putpixel` call. -/
def graphics_plot_pixel (x y color : Int) (plots : List (Int × Int × Int)) :
    List (Int × Int × Int) :=
  plots ++ [(x, y, color)]

/-- The body of the inner `for` loop of `main` (lines 163-186) for one pixel. -/
def main_pixel (sqrt : K → K) (c2 : cplx K) (pixel_x pixel_y : Int) (o : Screen K) :
    Screen K :=
  let s := main_eval sqrt c2
  { plots := if s.div ≠ 0 then graphics_plot_pixel pixel_x pixel_y 5 o.plots else o.plots,
    sampled := o.sampled ++ [(pixel_x, pixel_y, c2)] }

/-- The loop `for(x=XFROM,pixel_x=0;x<XTO;x+=xstep,pixel_x++)` of `main` (lines 159-187),
with the counter `x` in the exact field `K`. -/
def main_row (sqrt : K → K) (xstep y : K) (pixel_y : Int) :
    Nat → K → Int → Screen K → Option (Screen K)
  | 0, _, _, _ => none
  | fuel + 1, x, pixel_x, o =>
    if x < XTO then
      let c2 : cplx K := { r := x, i := y }
      main_row sqrt xstep y pixel_y fuel (x + xstep) (pixel_x + 1)
        (main_pixel sqrt c2 pixel_x pixel_y o)
    else some o

/-- The loop `for(y=YFROM,pixel_y=0;y>=YTO;y+=ystep,pixel_y++)` of `main` (lines 157-188),
with the counter `y` in the exact field `K`; `fuel` is handed to every row. -/
def main_rows (sqrt : K → K) (xstep ystep : K) (fuel : Nat) :
    Nat → K → Int → Screen K → Option (Screen K)
  | 0, _, _, _ => none
  | f + 1, y, pixel_y, o =>
    if y ≥ YTO then
      match main_row sqrt xstep y pixel_y fuel XFROM 0 o with
      | none => none
      | some o1 => main_rows sqrt xstep ystep fuel f (y + ystep) (pixel_y + 1) o1
    else some o

/-- The rendering part of `main` of `MANDEL.C` (lines 144-188); `getmaxx` and
`getmaxy` are the values the BGI calls `getmaxx()` and `getmaxy()` return. -/
def main (sqrt : K → K) (getmaxx getmaxy : Int) (fuel : Nat) : Option (Screen K) :=
  let xstep : K := (XTO - XFROM) / ((getmaxx + 1 : Int) : K)
  let ystep : K := (YTO - YFROM) / ((getmaxy + 1 : Int) : K)
  main_rows sqrt xstep ystep fuel fuel YFROM 0 { plots := [], sampled := [] }

/-- The variables of `main` of `MANDEL.C` (lines 131-133) that the body of the pixel loops
reads and writes; all of them keep their values from one pass to the next. -/
structure Locals (K : Type) where
  c1 : cplx K
  c2 : cplx K
  r : cplx K
  modulus : K
  div : Int
  iter : Int

/-- Line 141 of `main`, `c1.r=c1.i=0;`: the only assignment to `c1`, made before the loops. -/
def main_init (v : Locals K) : Locals K :=
  { v with c1 := { r := 0, i := 0 } }

/-- The loop `for(iter=0;iter<MAXITERATIONS;iter++)` of `main` (lines 171-181) acting on the
variables themselves; the first argument is the number of passes that remain. -/
def body_iter (sqrt : K → K) : Nat → Locals K → Locals K
  | 0, v => v
  | n + 1, v =>
    let v1 : Locals K := { v with r := func1 v.r v.c2 }
    let v2 : Locals K := { v1 with modulus := cplx_modulus sqrt v1.r }
    if v2.modulus ≥ CONVLIMIT then
      { v2 with div := 1 }
    else
      body_iter sqrt n { v2 with iter := v2.iter + 1 }

/-- The body of the inner `for` loop of `main` (lines 163-186) for the coordinates `x` and
`y` and the pixel `(pixel_x, pixel_y)`, run on the variables as the previous pass left
them: `c2.r=x; c2.i=y; r=c1; div=0;`, the iteration loop and `if(div)
graphics_plot_pixel(pixel_x,pixel_y,5);`.  The result is the variables and the plot calls
afterwards. -/
def main_body (sqrt : K → K) (x y : K) (pixel_x pixel_y : Int) (v : Locals K)
    (plots : List (Int × Int × Int)) : Locals K × List (Int × Int × Int) :=
  let v1 : Locals K := { v with c2 := { r := x, i := v.c2.i } }
  let v2 : Locals K := { v1 with c2 := { r := v1.c2.r, i := y } }
  let v3 : Locals K := { v2 with r := v2.c1 }
  let v4 : Locals K := { v3 with div := 0 }
  let v5 : Locals K := body_iter sqrt MAXITERATIONS { v4 with iter := 0 }
  (v5, if v5.div ≠ 0 then graphics_plot_pixel pixel_x pixel_y 5 plots else plots)

/-- Passes of the loop body over the list of coordinates and pixels, in order, each pass
starting on the variables and the plot calls the previous one left. -/
def run_body (sqrt : K → K) :
    List (K × K × Int × Int) → Locals K → List (Int × Int × Int) →
      Locals K × List (Int × Int × Int)
  | [], v, plots => (v, plots)
  | p :: rest, v, plots =>
    run_body sqrt rest (main_body sqrt p.1 p.2.1 p.2.2.1 p.2.2.2 v plots).1
      (main_body sqrt p.1 p.2.1 p.2.2.1 p.2.2.2 v plots).2

/-- The number of counter units in `1` for the loops of `MANDEL.C`: the counters `x` and
`y` and the steps are kept as integer multiples of `2^-112`. -/
def unit64 : Int := 5192296858534827628530496329220096

/-- The macro `XFROM`, `-1.6`, as a double, `-0x1.999999999999Ap+0`, in counter units. -/
def XFROM64 : Int := -8307674973655724666817395969490944
/-- The macro `XTO`, `0.5`, as a double, in counter units. -/
def XTO64 : Int := 2596148429267413814265248164610048
/-- The macro `YFROM`, `1.1`, as a double, `0x1.199999999999Ap+0`, in counter units. -/
def YFROM64 : Int := 5711526544388310852552147804880896
/-- The macro `YTO`, `-1.1`, as a double, `-0x1.199999999999Ap+0`, in counter units. -/
def YTO64 : Int := -5711526544388310852552147804880896

/-- The loop `for(x=XFROM,pixel_x=0;x<XTO;x+=xstep,pixel_x++)` of `main` (lines 159-187),
with the counter `x`, the step and `y` as doubles (in counter units). -/
def main_row64 (sqrt : K → K) (xstep y : Int) (pixel_y : Int) :
    Nat → Int → Int → Screen K → Option (Screen K)
  | 0, _, _, _ => none
  | fuel + 1, x, pixel_x, o =>
    if x < XTO64 then
      let c2 : cplx K := { r := (x : K) / (unit64 : K), i := (y : K) / (unit64 : K) }
      main_row64 sqrt xstep y pixel_y fuel (round53 (x + xstep)) (pixel_x + 1)
        (main_pixel sqrt c2 pixel_x pixel_y o)
    else some o

/-- The loop `for(y=YFROM,pixel_y=0;y>=YTO;y+=ystep,pixel_y++)` of `main` (lines 157-188),
with the counters and the steps as doubles; `fuel` is handed to every row. -/
def main_rows64 (sqrt : K → K) (xstep ystep : Int) (fuel : Nat) :
    Nat → Int → Int → Screen K → Option (Screen K)
  | 0, _, _, _ => none
  | f + 1, y, pixel_y, o =>
    if y ≥ YTO64 then
      match main_row64 sqrt xstep y pixel_y fuel XFROM64 0 o with
      | none => none
      | some o1 => main_rows64 sqrt xstep ystep fuel f (round53 (y + ystep)) (pixel_y + 1) o1
    else some o

/-- The rendering part of `main` of `MANDEL.C` (lines 144-188) with the counters and the
steps as doubles: `xstep=(XTO-XFROM)/(getmaxx()+1)` and `ystep=(YTO-YFROM)/(getmaxy()+1)`
are a rounded difference divided, with rounding, by the integer. -/
def main64 (sqrt : K → K) (getmaxx getmaxy : Int) (fuel : Nat) : Option (Screen K) :=
  let xstep : Int := quot53 (round53 (XTO64 - XFROM64)) (getmaxx + 1)
  let ystep : Int := quot53 (round53 (YTO64 - YFROM64)) (getmaxy + 1)
  main_rows64 sqrt xstep ystep fuel fuel YFROM64 0 { plots := [], sampled := [] }

end MANDEL

/-! Specification vocabulary: orbits, affine samples and the layout of the outputs. -/

section Vocabulary

variable {K : Type} [LinearOrderedField K]

/-- The orbit of the text variant: `orbit c 0 = (0,0)` and `orbit c (n+1) = func1 (orbit c n) c`. -/
def mandelbrot.orbit (c : cplx K) : Nat → cplx K
  | 0 => { r := 0, i := 0 }
  | n + 1 => mandelbrot.func1 (mandelbrot.orbit c n) c

/-- The orbit of the graphics variant: `orbit c 0 = (0,0)` and
`orbit c (n+1) = func1 (orbit c n) c`. -/
def MANDEL.orbit (c : cplx K) : Nat → cplx K
  | 0 => { r := 0, i := 0 }
  | n + 1 => MANDEL.func1 (MANDEL.orbit c n) c

/-- The constant the affine formula assigns to column `px` and row `py` of the text grid. -/
def mandelbrot.sample (px py : Nat) : cplx K :=
  { r := -2 + (px : K) * 4 / 100, i := -2 + (py : K) * 4 / 40 }

/-- Row `py` of the text output according to the affine formula: one symbol per column. -/
def mandelbrot.rowSymbols (sqrt : K → K) (py : Nat) : List Char :=
  (List.range 100).map (fun px => mandelbrot.main_pixel sqrt (mandelbrot.sample px py))

/-- The constant the affine formula assigns to pixel `(px, py)` of a `W` by `H` device. -/
def MANDEL.sample (W H px py : Nat) : cplx K :=
  { r := MANDEL.XFROM + (px : K) * (MANDEL.XTO - MANDEL.XFROM) / (W : K),
    i := MANDEL.YFROM + (py : K) * (MANDEL.YTO - MANDEL.YFROM) / (H : K) }

/-- The `graphics_plot_pixel` calls the loop body makes for the constant `c` at pixel
`(px, py)`: one call with colour 5 when the iteration loop set `div`, none otherwise. -/
def MANDEL.pixelPlots (sqrt : K → K) (c : cplx K) (px py : Nat) : List (Int × Int × Int) :=
  if (MANDEL.main_eval sqrt c).div ≠ 0 then [((px : Int), (py : Int), 5)] else []

/-- The character at column `px` of row `py` of a text output whose rows are a hundred
symbols followed by a line break. -/
def mandelbrot.symbolAt (out : List Char) (px py : Nat) : Option Char :=
  out[py * 101 + px]?

/-- Complex conjugation: the imaginary part is negated. -/
def cplx.conj (z : cplx K) : cplx K :=
  { r := z.r, i := -z.i }

/-- The loop state with every complex value conjugated; `div` and `iter` are kept. -/
def IterState.conj (s : IterState K) : IterState K :=
  { r := s.r.conj, div := s.div, iter := s.iter, terms := s.terms.map cplx.conj }

/-- The iteration loop of `mandelbrot.c` with the literal threshold `100` replaced by `T`;
the iteration cap is the first argument. -/
def mandelbrot.main_iter_at (sqrt : K → K) (T : K) (c2 : cplx K) :
    Nat → IterState K → IterState K
  | 0, s => s
  | n + 1, s =>
    let r := mandelbrot.func1 s.r c2
    if mandelbrot.modulus_complex sqrt r > T then
      { r := r, div := s.iter, iter := s.iter, terms := s.terms ++ [r] }
    else
      mandelbrot.main_iter_at sqrt T c2 n
        { r := r, div := s.div, iter := s.iter + 1, terms := s.terms ++ [r] }

/-- The iteration loop of `MANDEL.C` with the macro `CONVLIMIT` replaced by `T`; the
iteration cap (the macro `MAXITERATIONS`) is the first argument. -/
def MANDEL.main_iter_at (sqrt : K → K) (T : K) (c2 : cplx K) :
    Nat → IterState K → IterState K
  | 0, s => s
  | n + 1, s =>
    let r := MANDEL.func1 s.r c2
    let modulus := MANDEL.cplx_modulus sqrt r
    if modulus ≥ T then
      { r := r, div := 1, iter := s.iter, terms := s.terms ++ [r] }
    else
      MANDEL.main_iter_at sqrt T c2 n
        { r := r, div := s.div, iter := s.iter + 1, terms := s.terms ++ [r] }

/-- The position of a symbol in the order `.` < `:` < `*` < `@` of the four divergence
bands (`1` to `4`); any other character, the blank included, has position `0`. -/
def mandelbrot.bandRank (ch : Char) : Nat :=
  if ch = '.' then 1
  else if ch = ':' then 2
  else if ch = '*' then 3
  else if ch = '@' then 4
  else 0

/-- The value of the double `x` (in counter units) when the column loop of the text
renderer starts its pass number `k`. -/
def mandelbrot.xs64 : Nat → Int
  | 0 => -2 * mandelbrot.unit64
  | k + 1 => round53 (mandelbrot.xs64 k + mandelbrot.step_x64)

/-- The value of the double `y` (in counter units) when the row loop of the text renderer
starts its pass number `k`. -/
def mandelbrot.ys64 : Nat → Int
  | 0 => -2 * mandelbrot.unit64
  | k + 1 => round53 (mandelbrot.ys64 k + mandelbrot.step_y64)

/-- The constant of column `px` and row `py` of the text grid when the counters are
doubles. -/
def mandelbrot.sample64 {K : Type} [LinearOrderedField K] (px py : Nat) : cplx K :=
  { r := (mandelbrot.xs64 px : K) / (mandelbrot.unit64 : K),
    i := (mandelbrot.ys64 py : K) / (mandelbrot.unit64 : K) }

/-- Row `py` of the text output when the counters are doubles: one symbol per column. -/
def mandelbrot.rowSymbols64 {K : Type} [LinearOrderedField K] (sqrt : K → K) (py : Nat) :
    List Char :=
  (List.range 100).map (fun px => mandelbrot.main_pixel sqrt (mandelbrot.sample64 px py))

/-- The double `xstep` of `MANDEL.C` on the CGA device, `getmaxx() = 319`, in counter
units. -/
def MANDEL.xstep_cga : Int :=
  quot53 (round53 (MANDEL.XTO64 - MANDEL.XFROM64)) (319 + 1)

/-- The double `ystep` of `MANDEL.C` on the CGA device, `getmaxy() = 199`, in counter
units. -/
def MANDEL.ystep_cga : Int :=
  quot53 (round53 (MANDEL.YTO64 - MANDEL.YFROM64)) (199 + 1)

/-- The value of the double `x` (in counter units) when the column loop of `MANDEL.C`
starts its pass number `k`, for the step `xstep`. -/
def MANDEL.xs64 (xstep : Int) : Nat → Int
  | 0 => MANDEL.XFROM64
  | k + 1 => round53 (MANDEL.xs64 xstep k + xstep)

/-- The value of the double `y` (in counter units) when the row loop of `MANDEL.C` starts
its pass number `k`, for the step `ystep`. -/
def MANDEL.ys64 (ystep : Int) : Nat → Int
  | 0 => MANDEL.YFROM64
  | k + 1 => round53 (MANDEL.ys64 ystep k + ystep)

/-- The constant of pixel `(px, py)` on the CGA device when the counters are doubles. -/
def MANDEL.sample64 {K : Type} [LinearOrderedField K] (px py : Nat) : cplx K :=
  { r := (MANDEL.xs64 MANDEL.xstep_cga px : K) / (MANDEL.unit64 : K),
    i := (MANDEL.ys64 MANDEL.ystep_cga py : K) / (MANDEL.unit64 : K) }

end Vocabulary

/-! Interval enclosures of orbits.

Orbits of grid constants cannot be evaluated exactly for many steps (the
denominators square at every step).  The boxes below enclose an orbit term between
integer multiples of `10^-24`; they are a proof device and no part of the programs. -/

/-- A rectangle of the complex plane: `rl ≤ r·10^24 ≤ ru` and `il ≤ i·10^24 ≤ iu`. -/
structure Box where
  rl : Int
  ru : Int
  il : Int
  iu : Int

/-- The number of box units in `1`. -/
def Box.unit : Int := 10 ^ 24

/-- The least and the greatest of the four corner products of `[a,b]` and `[c,d]`. -/
def Box.mul (a b c d : Int) : Int × Int :=
  (min (min (a * c) (a * d)) (min (b * c) (b * d)),
   max (max (a * c) (a * d)) (max (b * c) (b * d)))

/-- A box around `z^2 + c` from a box around `z`; `cr` and `ci` are `c` in box units. -/
def Box.step (cr ci : Int) (b : Box) : Box :=
  let rr := Box.mul b.rl b.ru b.rl b.ru
  let ii := Box.mul b.il b.iu b.il b.iu
  let ri := Box.mul b.rl b.ru b.il b.iu
  { rl := (rr.1 - ii.2) / Box.unit + cr,
    ru := (rr.2 - ii.1) / Box.unit + 1 + cr,
    il := (2 * ri.1) / Box.unit + ci,
    iu := (2 * ri.2) / Box.unit + 1 + ci }

/-- Boxes around the orbit of the constant `(cr, ci)` (in box units). -/
def Box.orbit (cr ci : Int) : Nat → Box
  | 0 => { rl := 0, ru := 0, il := 0, iu := 0 }
  | n + 1 => Box.step cr ci (Box.orbit cr ci n)

/-- Every point of the box has squared modulus at most `100^2`. -/
def Box.small (b : Box) : Bool :=
  decide (max (b.rl * b.rl) (b.ru * b.ru) + max (b.il * b.il) (b.iu * b.iu)
    ≤ 10000 * (Box.unit * Box.unit))

/-- Every point of the box has an imaginary part above `100`. -/
def Box.large (b : Box) : Bool :=
  decide (0 < b.il ∧ 10000 * (Box.unit * Box.unit) < b.il * b.il)

/-- The point `z` lies in the box `b`. -/
def Box.contains (b : Box) (z : cplx ℝ) : Prop :=
  (b.rl : ℝ) ≤ z.r * (Box.unit : ℝ) ∧ z.r * (Box.unit : ℝ) ≤ (b.ru : ℝ) ∧
  (b.il : ℝ) ≤ z.i * (Box.unit : ℝ) ∧ z.i * (Box.unit : ℝ) ≤ (b.iu : ℝ)


/-! Auxiliary lemmas. -/

section Helpers

variable {K : Type} [LinearOrderedField K]

theorem range_succ_map_shift {α : Type} (f : Nat → α) (n : Nat) :
    (List.range (n + 1)).map f = f 0 :: (List.range n).map (fun j => f (j + 1)) := by
  rw [List.range_succ_eq_map]
  simp [List.map_map, Function.comp_def]

/-- The graphics loop when none of the next `n` orbit terms passes the test. -/
theorem gfx_iter_no_escape (sqrt : K → K) (c : cplx K) (n : Nat) :
    ∀ (k : Nat) (s : IterState K), s.r = MANDEL.orbit c k →
      (∀ j, 1 ≤ j → j ≤ n → ¬ MANDEL.cplx_modulus sqrt (MANDEL.orbit c (k + j)) ≥ 100) →
      MANDEL.main_iter sqrt c n s =
        { r := MANDEL.orbit c (k + n), div := s.div, iter := s.iter + n,
          terms := s.terms ++ (List.range n).map (fun j => MANDEL.orbit c (k + j + 1)) } := by
  induction n with
  | zero =>
    intro k s hr _
    cases s
    simp_all [MANDEL.main_iter]
  | succ n ih =>
    intro k s hr hno
    have h1 : ¬ MANDEL.cplx_modulus sqrt (MANDEL.func1 s.r c) ≥ MANDEL.CONVLIMIT := by
      have := hno 1 le_rfl (by omega)
      rw [hr]
      simpa [MANDEL.orbit, MANDEL.CONVLIMIT] using this
    rw [MANDEL.main_iter]
    simp only [h1, if_false]
    rw [ih (k + 1) _ (by simp [MANDEL.orbit, hr])
      (fun j hj1 hjn => by
        have := hno (j + 1) (by omega) (by omega)
        rwa [show k + 1 + j = k + (j + 1) by omega])]
    have hl : List.map (fun j => MANDEL.orbit c (k + 1 + j + 1)) (List.range n)
        = List.map (fun j => MANDEL.orbit c (k + (j + 1) + 1)) (List.range n) :=
      List.map_congr_left (fun j _ => by rw [show k + 1 + j + 1 = k + (j + 1) + 1 by omega])
    rw [hl, range_succ_map_shift (fun j => MANDEL.orbit c (k + j + 1)),
      show k + 1 + n = k + (n + 1) by omega]
    simp only [List.append_assoc, List.singleton_append, Nat.cast_add, Nat.cast_one,
      MANDEL.orbit, hr, Nat.add_zero, add_assoc]
    rw [add_comm (1 : Int)]

/-- The graphics loop when the `j`-th of the next `n` orbit terms is the first to pass the test. -/
theorem gfx_iter_escape (sqrt : K → K) (c : cplx K) (n : Nat) :
    ∀ (k j : Nat) (s : IterState K), s.r = MANDEL.orbit c k → 1 ≤ j → j ≤ n →
      MANDEL.cplx_modulus sqrt (MANDEL.orbit c (k + j)) ≥ 100 →
      (∀ m, 1 ≤ m → m < j → ¬ MANDEL.cplx_modulus sqrt (MANDEL.orbit c (k + m)) ≥ 100) →
      MANDEL.main_iter sqrt c n s =
        { r := MANDEL.orbit c (k + j), div := 1, iter := s.iter + (j - 1 : Nat),
          terms := s.terms ++ (List.range j).map (fun i => MANDEL.orbit c (k + i + 1)) } := by
  induction n with
  | zero => intro k j s _ h1 h0; omega
  | succ n ih =>
    intro k j s hr hj1 hjn hesc hmin
    rw [MANDEL.main_iter]
    rcases Nat.eq_or_lt_of_le hj1 with hj | hj
    · subst hj
      have h1 : MANDEL.cplx_modulus sqrt (MANDEL.func1 s.r c) ≥ MANDEL.CONVLIMIT := by
        rw [hr]
        simpa [MANDEL.orbit, MANDEL.CONVLIMIT] using hesc
      simp only [h1, if_true]
      simp [MANDEL.orbit, hr, List.range_succ]
    · have h1 : ¬ MANDEL.cplx_modulus sqrt (MANDEL.func1 s.r c) ≥ MANDEL.CONVLIMIT := by
        have := hmin 1 le_rfl hj
        rw [hr]
        simpa [MANDEL.orbit, MANDEL.CONVLIMIT] using this
      simp only [h1, if_false]
      obtain ⟨j', rfl⟩ : ∃ j', j = j' + 1 := ⟨j - 1, by omega⟩
      rw [ih (k + 1) j' _ (by simp [MANDEL.orbit, hr]) (by omega) (by omega)
        (by rwa [show k + 1 + j' = k + (j' + 1) by omega])
        (fun m hm1 hmj => by
          have := hmin (m + 1) (by omega) (by omega)
          rwa [show k + 1 + m = k + (m + 1) by omega])]
      have hl : List.map (fun i => MANDEL.orbit c (k + 1 + i + 1)) (List.range j')
          = List.map (fun i => MANDEL.orbit c (k + (i + 1) + 1)) (List.range j') :=
        List.map_congr_left (fun i _ => by rw [show k + 1 + i + 1 = k + (i + 1) + 1 by omega])
      rw [hl, range_succ_map_shift (fun i => MANDEL.orbit c (k + i + 1)),
        show k + 1 + j' = k + (j' + 1) by omega]
      simp only [List.append_assoc, List.singleton_append, MANDEL.orbit, hr, Nat.add_zero,
        Nat.add_sub_cancel]
      have e : s.iter + 1 + ((j' - 1 : Nat) : Int) = s.iter + (j' : Int) := by omega
      rw [e]

/-- The text loop when none of the next `n` orbit terms passes the test. -/
theorem text_iter_no_escape (sqrt : K → K) (c : cplx K) (n : Nat) :
    ∀ (k : Nat) (s : IterState K), s.r = mandelbrot.orbit c k →
      (∀ j, 1 ≤ j → j ≤ n → ¬ mandelbrot.modulus_complex sqrt (mandelbrot.orbit c (k + j)) > 100) →
      mandelbrot.main_iter sqrt c n s =
        { r := mandelbrot.orbit c (k + n), div := s.div, iter := s.iter + n,
          terms := s.terms ++ (List.range n).map (fun j => mandelbrot.orbit c (k + j + 1)) } := by
  induction n with
  | zero =>
    intro k s hr _
    cases s
    simp_all [mandelbrot.main_iter]
  | succ n ih =>
    intro k s hr hno
    have h1 : ¬ mandelbrot.modulus_complex sqrt (mandelbrot.func1 s.r c) > 100 := by
      have := hno 1 le_rfl (by omega)
      rw [hr]
      simpa [mandelbrot.orbit] using this
    rw [mandelbrot.main_iter]
    simp only [h1, if_false]
    rw [ih (k + 1) _ (by simp [mandelbrot.orbit, hr])
      (fun j hj1 hjn => by
        have := hno (j + 1) (by omega) (by omega)
        rwa [show k + 1 + j = k + (j + 1) by omega])]
    have hl : List.map (fun j => mandelbrot.orbit c (k + 1 + j + 1)) (List.range n)
        = List.map (fun j => mandelbrot.orbit c (k + (j + 1) + 1)) (List.range n) :=
      List.map_congr_left (fun j _ => by rw [show k + 1 + j + 1 = k + (j + 1) + 1 by omega])
    rw [hl, range_succ_map_shift (fun j => mandelbrot.orbit c (k + j + 1)),
      show k + 1 + n = k + (n + 1) by omega]
    simp only [List.append_assoc, List.singleton_append, Nat.cast_add, Nat.cast_one,
      mandelbrot.orbit, hr, Nat.add_zero, add_assoc]
    rw [add_comm (1 : Int)]

/-- The text loop when the `j`-th of the next `n` orbit terms is the first to pass the test. -/
theorem text_iter_escape (sqrt : K → K) (c : cplx K) (n : Nat) :
    ∀ (k j : Nat) (s : IterState K), s.r = mandelbrot.orbit c k → 1 ≤ j → j ≤ n →
      mandelbrot.modulus_complex sqrt (mandelbrot.orbit c (k + j)) > 100 →
      (∀ m, 1 ≤ m → m < j → ¬ mandelbrot.modulus_complex sqrt (mandelbrot.orbit c (k + m)) > 100) →
      mandelbrot.main_iter sqrt c n s =
        { r := mandelbrot.orbit c (k + j), div := s.iter + (j - 1 : Nat), iter := s.iter + (j - 1 : Nat),
          terms := s.terms ++ (List.range j).map (fun i => mandelbrot.orbit c (k + i + 1)) } := by
  induction n with
  | zero => intro k j s _ h1 h0; omega
  | succ n ih =>
    intro k j s hr hj1 hjn hesc hmin
    rw [mandelbrot.main_iter]
    rcases Nat.eq_or_lt_of_le hj1 with hj | hj
    · subst hj
      have h1 : mandelbrot.modulus_complex sqrt (mandelbrot.func1 s.r c) > 100 := by
        rw [hr]
        simpa [mandelbrot.orbit] using hesc
      simp only [h1, if_true]
      simp [mandelbrot.orbit, hr, List.range_succ]
    · have h1 : ¬ mandelbrot.modulus_complex sqrt (mandelbrot.func1 s.r c) > 100 := by
        have := hmin 1 le_rfl hj
        rw [hr]
        simpa [mandelbrot.orbit] using this
      simp only [h1, if_false]
      obtain ⟨j', rfl⟩ : ∃ j', j = j' + 1 := ⟨j - 1, by omega⟩
      rw [ih (k + 1) j' _ (by simp [mandelbrot.orbit, hr]) (by omega) (by omega)
        (by rwa [show k + 1 + j' = k + (j' + 1) by omega])
        (fun m hm1 hmj => by
          have := hmin (m + 1) (by omega) (by omega)
          rwa [show k + 1 + m = k + (m + 1) by omega])]
      have hl : List.map (fun i => mandelbrot.orbit c (k + 1 + i + 1)) (List.range j')
          = List.map (fun i => mandelbrot.orbit c (k + (i + 1) + 1)) (List.range j') :=
        List.map_congr_left (fun i _ => by rw [show k + 1 + i + 1 = k + (i + 1) + 1 by omega])
      rw [hl, range_succ_map_shift (fun i => mandelbrot.orbit c (k + i + 1)),
        show k + 1 + j' = k + (j' + 1) by omega]
      simp only [List.append_assoc, List.singleton_append, mandelbrot.orbit, hr, Nat.add_zero,
        Nat.add_sub_cancel]
      have e : s.iter + 1 + ((j' - 1 : Nat) : Int) = s.iter + (j' : Int) := by omega
      rw [e]

theorem text_row_aux (sqrt : K → K) (y : K) (d : Nat) :
    ∀ (k fuel : Nat) (x : K) (o : mandelbrot.Console K), k + d = 100 → d < fuel →
      x = -2 + (k : K) * 4 / 100 →
      mandelbrot.main_row sqrt y fuel x o = some
        { out := o.out ++ (List.range' k d).map
            (fun (px : Nat) => mandelbrot.main_pixel sqrt { r := -2 + (px : K) * 4 / 100, i := y }),
          sampled := o.sampled ++ (List.range' k d).map
            (fun (px : Nat) => ({ r := -2 + (px : K) * 4 / 100, i := y } : cplx K)) } := by
  induction d with
  | zero =>
    intro k fuel x o hk hf hx
    obtain ⟨f, rfl⟩ : ∃ f, fuel = f + 1 := ⟨fuel - 1, by omega⟩
    have hk' : k = 100 := by omega
    subst hk'
    have : ¬ x < 2 := by rw [hx]; norm_num
    simp [mandelbrot.main_row, this]
  | succ d ih =>
    intro k fuel x o hk hf hx
    obtain ⟨f, rfl⟩ : ∃ f, fuel = f + 1 := ⟨fuel - 1, by omega⟩
    have hk' : (k : K) ≤ 99 := by
      have : k ≤ 99 := by omega
      exact_mod_cast this
    have hlt : x < 2 := by rw [hx]; linarith
    rw [mandelbrot.main_row]
    simp only [hlt, if_true]
    rw [ih (k + 1) f _ _ (by omega) (by omega) (by rw [hx]; push_cast; norm_num; ring)]
    have e : List.range' k (d + 1) = k :: List.range' (k + 1) d := rfl
    rw [e]
    simp [hx]

theorem text_rows_aux (sqrt : K → K) (fuel : Nat) (hfuel : 100 < fuel) (d : Nat) :
    ∀ (k f : Nat) (y : K) (o : mandelbrot.Console K), k + d = 40 → d < f →
      y = -2 + (k : K) * 4 / 40 →
      mandelbrot.main_rows sqrt fuel f y o = some
        { out := o.out ++ (List.range' k d).flatMap
            (fun py => mandelbrot.rowSymbols sqrt py ++ ['\n']),
          sampled := o.sampled ++ (List.range' k d).flatMap
            (fun py => (List.range 100).map (fun px => mandelbrot.sample px py)) } := by
  induction d with
  | zero =>
    intro k f y o hk hf hy
    obtain ⟨f, rfl⟩ : ∃ f', f = f' + 1 := ⟨f - 1, by omega⟩
    have hk' : k = 40 := by omega
    subst hk'
    have : ¬ y < 2 := by rw [hy]; norm_num
    simp [mandelbrot.main_rows, this]
  | succ d ih =>
    intro k f y o hk hf hy
    obtain ⟨f, rfl⟩ : ∃ f', f = f' + 1 := ⟨f - 1, by omega⟩
    have hk' : (k : K) ≤ 39 := by
      have : k ≤ 39 := by omega
      exact_mod_cast this
    have hlt : y < 2 := by rw [hy]; linarith
    rw [mandelbrot.main_rows]
    simp only [hlt, if_true]
    rw [text_row_aux sqrt y 100 0 fuel (-2) o rfl hfuel (by norm_num)]
    simp only
    rw [ih (k + 1) f _ _ (by omega) (by omega) (by rw [hy]; push_cast; norm_num; ring)]
    have e : List.range' k (d + 1) = k :: List.range' (k + 1) d := rfl
    rw [e]
    simp only [List.flatMap_cons, mandelbrot.rowSymbols, mandelbrot.sample, List.append_assoc,
      List.range_eq_range', hy]

/-- The text program with enough fuel: forty rows of a hundred symbols and a line break. -/
theorem text_eq (sqrt : K → K) (fuel : Nat) (hfuel : 100 < fuel) :
    mandelbrot.main sqrt fuel = some
      { out := (List.range 40).flatMap (fun py => mandelbrot.rowSymbols sqrt py ++ ['\n']),
        sampled := (List.range 40).flatMap
          (fun py => (List.range 100).map (fun px => mandelbrot.sample px py)) } := by
  have h := text_rows_aux sqrt fuel hfuel 40 0 fuel (-2) { out := [], sampled := [] }
    rfl (by omega) (by norm_num)
  rw [mandelbrot.main, h]
  rw [List.range_eq_range' (n := 40)]
  exact congrArg₂ (fun a b => some (mandelbrot.Console.mk a b)) (List.nil_append _)
    (List.nil_append _)

theorem gfx_x_guard (W k : Nat) (hW : 1 ≤ W) :
    (MANDEL.XFROM + (k : K) * (MANDEL.XTO - MANDEL.XFROM) / (W : K) < MANDEL.XTO) ↔ k < W := by
  have hWK : (0 : K) < (W : K) := by exact_mod_cast hW
  have e : (MANDEL.XTO : K) - MANDEL.XFROM = 2.1 := by
    unfold MANDEL.XTO MANDEL.XFROM; norm_num
  rw [e]
  have e2 : MANDEL.XFROM + (k : K) * 2.1 / (W : K) < MANDEL.XTO ↔ (k : K) * 2.1 / (W : K) < 2.1 := by
    unfold MANDEL.XTO MANDEL.XFROM
    constructor <;> intro h <;> norm_num at h ⊢ <;> linarith
  rw [e2, div_lt_iff₀ hWK]
  constructor
  · intro h
    have : (k : K) < (W : K) := by
      by_contra hc
      push_neg at hc
      nlinarith
    exact_mod_cast this
  · intro h
    have : (k : K) < (W : K) := by exact_mod_cast h
    nlinarith

theorem gfx_y_guard (H k : Nat) (hH : 1 ≤ H) :
    (MANDEL.YFROM + (k : K) * (MANDEL.YTO - MANDEL.YFROM) / (H : K) ≥ MANDEL.YTO) ↔ k ≤ H := by
  have hHK : (0 : K) < (H : K) := by exact_mod_cast hH
  have e : (MANDEL.YTO : K) - MANDEL.YFROM = -2.2 := by
    unfold MANDEL.YTO MANDEL.YFROM; norm_num
  rw [e]
  have e2 : MANDEL.YFROM + (k : K) * (-2.2) / (H : K) ≥ MANDEL.YTO ↔ (k : K) * 2.2 / (H : K) ≤ 2.2 := by
    have : (k : K) * (-2.2) / (H : K) = - ((k : K) * 2.2 / (H : K)) := by ring
    rw [this]
    unfold MANDEL.YTO MANDEL.YFROM
    constructor <;> intro h <;> norm_num at h ⊢ <;> linarith
  rw [e2, div_le_iff₀ hHK]
  constructor
  · intro h
    have : (k : K) ≤ (H : K) := by
      by_contra hc
      push_neg at hc
      nlinarith
    exact_mod_cast this
  · intro h
    have : (k : K) ≤ (H : K) := by exact_mod_cast h
    nlinarith

theorem gfx_pixel_eq (sqrt : K → K) (c : cplx K) (px py : Nat) (o : MANDEL.Screen K) :
    MANDEL.main_pixel sqrt c (px : Int) (py : Int) o =
      { plots := o.plots ++ MANDEL.pixelPlots sqrt c px py,
        sampled := o.sampled ++ [((px : Int), (py : Int), c)] } := by
  unfold MANDEL.main_pixel MANDEL.pixelPlots MANDEL.graphics_plot_pixel
  by_cases h : (MANDEL.main_eval sqrt c).div = 0 <;> simp [h]

theorem gfx_row_aux (sqrt : K → K) (W : Nat) (hW : 1 ≤ W) (y : K) (py : Nat) (d : Nat) :
    ∀ (k fuel : Nat) (x : K) (o : MANDEL.Screen K), k + d = W → d < fuel →
      x = MANDEL.XFROM + (k : K) * (MANDEL.XTO - MANDEL.XFROM) / (W : K) →
      MANDEL.main_row sqrt ((MANDEL.XTO - MANDEL.XFROM) / (W : K)) y (py : Int) fuel x (k : Int) o
        = some
        { plots := o.plots ++ (List.range' k d).flatMap (fun (px : Nat) =>
            MANDEL.pixelPlots sqrt
              { r := MANDEL.XFROM + (px : K) * (MANDEL.XTO - MANDEL.XFROM) / (W : K), i := y }
              px py),
          sampled := o.sampled ++ (List.range' k d).map (fun (px : Nat) =>
            ((px : Int), (py : Int),
              ({ r := MANDEL.XFROM + (px : K) * (MANDEL.XTO - MANDEL.XFROM) / (W : K), i := y }
                : cplx K))) } := by
  induction d with
  | zero =>
    intro k fuel x o hk hf hx
    obtain ⟨f, rfl⟩ : ∃ f, fuel = f + 1 := ⟨fuel - 1, by omega⟩
    have hg : ¬ x < MANDEL.XTO := by
      rw [hx, gfx_x_guard W k hW]; omega
    simp [MANDEL.main_row, hg]
  | succ d ih =>
    intro k fuel x o hk hf hx
    obtain ⟨f, rfl⟩ : ∃ f, fuel = f + 1 := ⟨fuel - 1, by omega⟩
    have hg : x < MANDEL.XTO := by
      rw [hx, gfx_x_guard W k hW]; omega
    rw [MANDEL.main_row]
    simp only [hg, if_true]
    have hk1 : ((k : Int) + 1) = ((k + 1 : Nat) : Int) := by push_cast; rfl
    rw [hk1, gfx_pixel_eq,
      ih (k + 1) f _ _ (by omega) (by omega) (by rw [hx]; push_cast; ring)]
    have e : List.range' k (d + 1) = k :: List.range' (k + 1) d := rfl
    rw [e]
    simp only [List.flatMap_cons, List.map_cons, List.append_assoc, List.singleton_append, hx]

theorem gfx_rows_aux (sqrt : K → K) (W H : Nat) (hW : 1 ≤ W) (hH : 1 ≤ H)
    (fuel : Nat) (hfuel : W < fuel) (d : Nat) :
    ∀ (k f : Nat) (y : K) (o : MANDEL.Screen K), k + d = H + 1 → d < f →
      y = MANDEL.YFROM + (k : K) * (MANDEL.YTO - MANDEL.YFROM) / (H : K) →
      MANDEL.main_rows sqrt ((MANDEL.XTO - MANDEL.XFROM) / (W : K))
          ((MANDEL.YTO - MANDEL.YFROM) / (H : K)) fuel f y (k : Int) o
        = some
        { plots := o.plots ++ (List.range' k d).flatMap (fun (py : Nat) =>
            (List.range W).flatMap (fun (px : Nat) =>
              MANDEL.pixelPlots sqrt (MANDEL.sample W H px py) px py)),
          sampled := o.sampled ++ (List.range' k d).flatMap (fun (py : Nat) =>
            (List.range W).map (fun (px : Nat) =>
              ((px : Int), (py : Int), (MANDEL.sample W H px py : cplx K)))) } := by
  induction d with
  | zero =>
    intro k f y o hk hf hy
    obtain ⟨f, rfl⟩ : ∃ f', f = f' + 1 := ⟨f - 1, by omega⟩
    have hg : ¬ y ≥ MANDEL.YTO := by
      rw [hy, gfx_y_guard H k hH]; omega
    simp [MANDEL.main_rows, hg]
  | succ d ih =>
    intro k f y o hk hf hy
    obtain ⟨f, rfl⟩ : ∃ f', f = f' + 1 := ⟨f - 1, by omega⟩
    have hg : y ≥ MANDEL.YTO := by
      rw [hy, gfx_y_guard H k hH]; omega
    rw [MANDEL.main_rows]
    simp only [hg, if_true]
    have h0 := gfx_row_aux sqrt W hW y k W 0 fuel MANDEL.XFROM o (by omega) hfuel
      (by simp)
    rw [show ((0 : Nat) : Int) = 0 from rfl] at h0
    rw [h0]
    simp only
    have hk1 : ((k : Int) + 1) = ((k + 1 : Nat) : Int) := by push_cast; rfl
    rw [hk1, ih (k + 1) f _ _ (by omega) (by omega) (by rw [hy]; push_cast; ring)]
    have e : List.range' k (d + 1) = k :: List.range' (k + 1) d := rfl
    rw [e]
    simp only [List.flatMap_cons, List.append_assoc, MANDEL.sample, List.range_eq_range', hy]

/-- The graphics program with enough fuel: rows `0 .. H` (the last one included), each
with the columns `0 .. W-1`, in row-major order. -/
theorem gfx_eq (sqrt : K → K) (W H : Nat) (hW : 1 ≤ W) (hH : 1 ≤ H) (fuel : Nat)
    (hfW : W < fuel) (hfH : H + 1 < fuel) :
    MANDEL.main sqrt ((W : Int) - 1) ((H : Int) - 1) fuel = some
      { plots := (List.range (H + 1)).flatMap (fun (py : Nat) =>
          (List.range W).flatMap (fun (px : Nat) =>
            MANDEL.pixelPlots sqrt (MANDEL.sample W H px py) px py)),
        sampled := (List.range (H + 1)).flatMap (fun (py : Nat) =>
          (List.range W).map (fun (px : Nat) =>
            ((px : Int), (py : Int), (MANDEL.sample W H px py : cplx K)))) } := by
  have h := gfx_rows_aux sqrt W H hW hH fuel hfW (H + 1) 0 fuel MANDEL.YFROM
    { plots := [], sampled := [] } (by omega) hfH (by simp)
  rw [show ((0 : Nat) : Int) = 0 from rfl] at h
  have eW : (((W : Int) - 1 + 1 : Int) : K) = (W : K) := by push_cast; ring
  have eH : (((H : Int) - 1 + 1 : Int) : K) = (H : K) := by push_cast; ring
  rw [MANDEL.main]
  simp only [eW, eH]
  rw [h, List.range_eq_range' (n := H + 1)]
  exact congrArg₂ (fun a b => some (MANDEL.Screen.mk a b)) (List.nil_append _)
    (List.nil_append _)

theorem gfx_eval_escape (sqrt : K → K) (c : cplx K) (n : Nat) (h1 : 1 ≤ n)
    (h100 : n ≤ 100) (he : MANDEL.cplx_modulus sqrt (MANDEL.orbit c n) ≥ 100)
    (hmin : ∀ m, 1 ≤ m → m < n → ¬ MANDEL.cplx_modulus sqrt (MANDEL.orbit c m) ≥ 100) :
    MANDEL.main_eval sqrt c =
      { r := MANDEL.orbit c n, div := 1, iter := ((n - 1 : Nat) : Int),
        terms := (List.range n).map (fun i => MANDEL.orbit c (i + 1)) } := by
  have := gfx_iter_escape sqrt c 100 0 n
    { r := { r := 0, i := 0 }, div := 0, iter := 0, terms := [] } rfl h1 h100
    (by simpa using he) (by simpa using hmin)
  simpa [MANDEL.main_eval, MANDEL.MAXITERATIONS] using this

theorem gfx_eval_no_escape (sqrt : K → K) (c : cplx K)
    (h : ∀ n, 1 ≤ n → n ≤ 100 → ¬ MANDEL.cplx_modulus sqrt (MANDEL.orbit c n) ≥ 100) :
    MANDEL.main_eval sqrt c =
      { r := MANDEL.orbit c 100, div := 0, iter := 100,
        terms := (List.range 100).map (fun i => MANDEL.orbit c (i + 1)) } := by
  have := gfx_iter_no_escape sqrt c 100 0
    { r := { r := 0, i := 0 }, div := 0, iter := 0, terms := [] } rfl
    (fun j hj1 hj2 => by simpa using h j hj1 hj2)
  simpa [MANDEL.main_eval, MANDEL.MAXITERATIONS] using this

theorem text_eval_escape (sqrt : K → K) (c : cplx K) (n : Nat) (h1 : 1 ≤ n)
    (h100 : n ≤ 100) (he : mandelbrot.modulus_complex sqrt (mandelbrot.orbit c n) > 100)
    (hmin : ∀ m, 1 ≤ m → m < n → ¬ mandelbrot.modulus_complex sqrt (mandelbrot.orbit c m) > 100) :
    mandelbrot.main_eval sqrt c =
      { r := mandelbrot.orbit c n, div := ((n - 1 : Nat) : Int), iter := ((n - 1 : Nat) : Int),
        terms := (List.range n).map (fun i => mandelbrot.orbit c (i + 1)) } := by
  have := text_iter_escape sqrt c 100 0 n
    { r := { r := 0, i := 0 }, div := 0, iter := 0, terms := [] } rfl h1 h100
    (by simpa using he) (by simpa using hmin)
  simpa [mandelbrot.main_eval] using this

theorem text_eval_no_escape (sqrt : K → K) (c : cplx K)
    (h : ∀ n, 1 ≤ n → n ≤ 100 → ¬ mandelbrot.modulus_complex sqrt (mandelbrot.orbit c n) > 100) :
    mandelbrot.main_eval sqrt c =
      { r := mandelbrot.orbit c 100, div := 0, iter := 100,
        terms := (List.range 100).map (fun i => mandelbrot.orbit c (i + 1)) } := by
  have := text_iter_no_escape sqrt c 100 0
    { r := { r := 0, i := 0 }, div := 0, iter := 0, terms := [] } rfl
    (fun j hj1 hj2 => by simpa using h j hj1 hj2)
  simpa [mandelbrot.main_eval] using this

end Helpers

section MoreHelpers

variable {K : Type} [LinearOrderedField K]

theorem text_orbit_zero (n : Nat) :
    mandelbrot.orbit ({ r := 0, i := 0 } : cplx K) n = { r := 0, i := 0 } := by
  induction n with
  | zero => rfl
  | succ n ih => rw [mandelbrot.orbit, ih]; simp [mandelbrot.func1]

theorem gfx_orbit_zero (n : Nat) :
    MANDEL.orbit ({ r := 0, i := 0 } : cplx K) n = { r := 0, i := 0 } := by
  induction n with
  | zero => rfl
  | succ n ih => rw [MANDEL.orbit, ih]; simp [MANDEL.func1]

theorem text_symbol_ne_newline (d : Int) : mandelbrot.main_symbol d ≠ '\n' := by
  unfold mandelbrot.main_symbol
  split_ifs <;> decide

theorem text_symbol_mem (d : Int) : mandelbrot.main_symbol d ∈ [' ', '.', ':', '*', '@'] := by
  unfold mandelbrot.main_symbol
  split_ifs <;> simp

/-- The text loop records the zero-based index of the first term that passes its test. -/
theorem text_pixel_first_escape (sqrt : K → K) (c : cplx K) (n : Nat) (h1 : 1 ≤ n)
    (h100 : n ≤ 100) (he : mandelbrot.modulus_complex sqrt (mandelbrot.orbit c n) > 100)
    (hmin : ∀ m, 1 ≤ m → m < n → ¬ mandelbrot.modulus_complex sqrt (mandelbrot.orbit c m) > 100) :
    mandelbrot.main_pixel sqrt c = mandelbrot.main_symbol ((n - 1 : Nat) : Int) := by
  unfold mandelbrot.main_pixel
  rw [text_eval_escape sqrt c n h1 h100 he hmin]

theorem text_pixel_no_escape (sqrt : K → K) (c : cplx K)
    (h : ∀ n, 1 ≤ n → n ≤ 100 → ¬ mandelbrot.modulus_complex sqrt (mandelbrot.orbit c n) > 100) :
    mandelbrot.main_pixel sqrt c = ' ' := by
  unfold mandelbrot.main_pixel
  rw [text_eval_no_escape sqrt c h]
  rfl

theorem gfx_eval_div_iff (sqrt : K → K) (c : cplx K) :
    (MANDEL.main_eval sqrt c).div = 1 ↔
      ∃ n, 1 ≤ n ∧ n ≤ 100 ∧ MANDEL.cplx_modulus sqrt (MANDEL.orbit c n) ≥ 100 := by
  constructor
  · intro hdiv
    by_contra h
    rw [gfx_eval_no_escape sqrt c (fun n h1 h2 h3 => h ⟨n, h1, h2, h3⟩)] at hdiv
    simp at hdiv
  · intro h
    classical
    have hspec := Nat.find_spec h
    rw [gfx_eval_escape sqrt c (Nat.find h) hspec.1 hspec.2.1 hspec.2.2
      (fun m hm1 hm hge => Nat.find_min h hm ⟨hm1, by omega, hge⟩)]

end MoreHelpers

section RealHelpers

theorem real_text_test (z : cplx ℝ) :
    mandelbrot.modulus_complex Real.sqrt z > 100 ↔ z.r * z.r + z.i * z.i > 10000 := by
  unfold mandelbrot.modulus_complex
  rw [gt_iff_lt, Real.lt_sqrt (by norm_num)]
  norm_num

theorem real_gfx_test (z : cplx ℝ) :
    MANDEL.cplx_modulus Real.sqrt z ≥ 100 ↔ z.r * z.r + z.i * z.i ≥ 10000 := by
  unfold MANDEL.cplx_modulus
  rw [ge_iff_le, Real.le_sqrt' (by norm_num)]
  norm_num

theorem text_orbit_101 :
    mandelbrot.orbit ({ r := 101, i := 0 } : cplx ℝ) 1 = { r := 101, i := 0 } := by
  simp [mandelbrot.orbit, mandelbrot.func1]

theorem real_text_zero_bounded (n : Nat) :
    ¬ mandelbrot.modulus_complex Real.sqrt
      (mandelbrot.orbit ({ r := 0, i := 0 } : cplx ℝ) n) > 100 := by
  rw [real_text_test, text_orbit_zero]; norm_num

theorem real_gfx_zero_bounded (n : Nat) :
    ¬ MANDEL.cplx_modulus Real.sqrt
      (MANDEL.orbit ({ r := 0, i := 0 } : cplx ℝ) n) ≥ 100 := by
  rw [real_gfx_test, gfx_orbit_zero]; norm_num

end RealHelpers

section ListHelpers

theorem flatMap_range_length {α : Type} (rows : Nat → List α) (L : Nat)
    (hlen : ∀ r, (rows r).length = L) (n : Nat) :
    ((List.range n).flatMap rows).length = n * L := by
  induction n with
  | zero => simp
  | succ n ih =>
    rw [List.range_succ, List.flatMap_append, List.length_append, ih]
    simp [hlen, Nat.succ_mul]

theorem flatMap_range_getElem? {α : Type} (rows : Nat → List α) (L : Nat)
    (hlen : ∀ r, (rows r).length = L) (n r i : Nat) (hr : r < n) (hi : i < L) :
    ((List.range n).flatMap rows)[r * L + i]? = (rows r)[i]? := by
  induction n with
  | zero => omega
  | succ n ih =>
    rw [List.range_succ, List.flatMap_append]
    have hl := flatMap_range_length rows L hlen n
    rcases Nat.lt_succ_iff_lt_or_eq.mp hr with h | h
    · have hlt : r * L + i < n * L := by
        calc r * L + i < r * L + L := by omega
          _ = (r + 1) * L := by ring
          _ ≤ n * L := Nat.mul_le_mul_right L h
      rw [List.getElem?_append_left (by rw [hl]; exact hlt)]
      exact ih h
    · subst h
      rw [List.getElem?_append_right (by rw [hl]; omega), hl]
      simp

theorem flatMap_range_count {α : Type} [DecidableEq α] (rows : Nat → List α) (a : α)
    (hc : ∀ r, (rows r).count a = 1) (n : Nat) :
    ((List.range n).flatMap rows).count a = n := by
  induction n with
  | zero => simp
  | succ n ih =>
    rw [List.range_succ, List.flatMap_append, List.count_append, ih]
    simp [hc]

end ListHelpers

section GridHelpers

variable {K : Type} [LinearOrderedField K]

theorem text_row_length (sqrt : K → K) (py : Nat) :
    (mandelbrot.rowSymbols sqrt py ++ ['\n']).length = 101 := by
  simp [mandelbrot.rowSymbols]

theorem text_row_getElem? (sqrt : K → K) (px py : Nat) (hpx : px < 100) :
    (mandelbrot.rowSymbols sqrt py ++ ['\n'])[px]?
      = some (mandelbrot.main_pixel sqrt (mandelbrot.sample px py)) := by
  rw [List.getElem?_append_left (by simp [mandelbrot.rowSymbols]; exact hpx)]
  simp [mandelbrot.rowSymbols, List.getElem?_range hpx]

end GridHelpers


section SymmetryHelpers

variable {K : Type} [LinearOrderedField K]

theorem text_symbolAt (sqrt : K → K) (px py : Nat) (hpx : px < 100) (hpy : py < 40) :
    mandelbrot.symbolAt
        ((List.range 40).flatMap (fun py => mandelbrot.rowSymbols sqrt py ++ ['\n'])) px py
      = some (mandelbrot.main_pixel sqrt (mandelbrot.sample px py)) := by
  unfold mandelbrot.symbolAt
  rw [flatMap_range_getElem? _ 101 (text_row_length sqrt) 40 py px hpy (by omega),
    text_row_getElem? sqrt px py hpx]

end SymmetryHelpers


section ConcreteOrbits

theorem gfx_orbit_corner_1 :
    MANDEL.orbit ({ r := (-8 / 5), i := (-11 / 10) } : cplx ℝ) 1
      = { r := (-8 / 5), i := (-11 / 10) } := by
  simp only [MANDEL.orbit, MANDEL.func1, cplx.mk.injEq]
  constructor <;> norm_num

theorem gfx_orbit_corner_2 :
    MANDEL.orbit ({ r := (-8 / 5), i := (-11 / 10) } : cplx ℝ) 2
      = { r := (-1 / 4), i := (121 / 50) } := by
  rw [MANDEL.orbit, gfx_orbit_corner_1]
  simp only [MANDEL.func1, cplx.mk.injEq]
  constructor <;> norm_num

theorem gfx_orbit_corner_3 :
    MANDEL.orbit ({ r := (-8 / 5), i := (-11 / 10) } : cplx ℝ) 3
      = { r := (-73939 / 10000), i := (-231 / 100) } := by
  rw [MANDEL.orbit, gfx_orbit_corner_2]
  simp only [MANDEL.func1, cplx.mk.injEq]
  constructor <;> norm_num

theorem gfx_orbit_corner_4 :
    MANDEL.orbit ({ r := (-8 / 5), i := (-11 / 10) } : cplx ℝ) 4
      = { r := (4773365721 / 100000000), i := (16529909 / 500000) } := by
  rw [MANDEL.orbit, gfx_orbit_corner_3]
  simp only [MANDEL.func1, cplx.mk.injEq]
  constructor <;> norm_num

theorem gfx_orbit_corner_5 :
    MANDEL.orbit ({ r := (-8 / 5), i := (-11 / 10) } : cplx ℝ) 5
      = { r := (11839504644486609841 / 10000000000000000), i := (78875800991849389 / 25000000000000) } := by
  rw [MANDEL.orbit, gfx_orbit_corner_4]
  simp only [MANDEL.func1, cplx.mk.injEq]
  constructor <;> norm_num

theorem gfx_eval_corner :
    (MANDEL.main_eval Real.sqrt ({ r := -8 / 5, i := -11 / 10 } : cplx ℝ)).div = 1 := by
  rw [gfx_eval_escape Real.sqrt _ 5 (by norm_num) (by norm_num)
    (by rw [real_gfx_test, gfx_orbit_corner_5]; norm_num)
    (fun m hm1 hm5 => by
      rw [real_gfx_test]
      interval_cases m
      · rw [gfx_orbit_corner_1]; norm_num
      · rw [gfx_orbit_corner_2]; norm_num
      · rw [gfx_orbit_corner_3]; norm_num
      · rw [gfx_orbit_corner_4]; norm_num)]

end ConcreteOrbits

section BoxHelpers

theorem mul_corner_bounds (a b c d x y : ℝ) (hxa : a ≤ x) (hxb : x ≤ b) (hyc : c ≤ y)
    (hyd : y ≤ d) :
    min (min (a * c) (a * d)) (min (b * c) (b * d)) ≤ x * y ∧
    x * y ≤ max (max (a * c) (a * d)) (max (b * c) (b * d)) := by
  have hlo : ∀ t : ℝ, min (t * c) (t * d) ≤ t * y := by
    intro t
    rcases le_total 0 t with ht | ht
    · exact (min_le_left _ _).trans (mul_le_mul_of_nonneg_left hyc ht)
    · exact (min_le_right _ _).trans (mul_le_mul_of_nonpos_left hyd ht)
  have hhi : ∀ t : ℝ, t * y ≤ max (t * c) (t * d) := by
    intro t
    rcases le_total 0 t with ht | ht
    · exact (mul_le_mul_of_nonneg_left hyd ht).trans (le_max_right _ _)
    · exact (mul_le_mul_of_nonpos_left hyc ht).trans (le_max_left _ _)
  constructor
  · have h1 : min (a * y) (b * y) ≤ x * y := by
      rcases le_total 0 y with hy | hy
      · exact (min_le_left _ _).trans (mul_le_mul_of_nonneg_right hxa hy)
      · exact (min_le_right _ _).trans (mul_le_mul_of_nonpos_right hxb hy)
    exact (min_le_min (hlo a) (hlo b)).trans h1
  · have h1 : x * y ≤ max (a * y) (b * y) := by
      rcases le_total 0 y with hy | hy
      · exact (mul_le_mul_of_nonneg_right hxb hy).trans (le_max_right _ _)
      · exact (mul_le_mul_of_nonpos_right hxa hy).trans (le_max_left _ _)
    exact h1.trans (max_le_max (hhi a) (hhi b))

theorem box_mul_bounds (a b c d : Int) (x y : ℝ) (hxa : (a : ℝ) ≤ x) (hxb : x ≤ (b : ℝ))
    (hyc : (c : ℝ) ≤ y) (hyd : y ≤ (d : ℝ)) :
    ((Box.mul a b c d).1 : ℝ) ≤ x * y ∧ x * y ≤ ((Box.mul a b c d).2 : ℝ) := by
  have h := mul_corner_bounds a b c d x y hxa hxb hyc hyd
  simp only [Box.mul]
  push_cast
  exact h

theorem box_unit_pos : (0 : ℝ) < (Box.unit : ℝ) := by
  unfold Box.unit
  norm_num

theorem box_floor (n : Int) :
    ((n / Box.unit : Int) : ℝ) * (Box.unit : ℝ) ≤ (n : ℝ) ∧
    (n : ℝ) ≤ ((n / Box.unit + 1 : Int) : ℝ) * (Box.unit : ℝ) := by
  have hu : (0 : Int) < Box.unit := by unfold Box.unit; norm_num
  have h1 : n / Box.unit * Box.unit ≤ n := Int.ediv_mul_le n (ne_of_gt hu)
  have h2 : n < (n / Box.unit + 1) * Box.unit := Int.lt_ediv_add_one_mul_self n hu
  constructor
  · exact_mod_cast h1
  · exact_mod_cast h2.le

theorem step_bounds (U : ℝ) (hU : 0 < U) (z : cplx ℝ)
    (cr ci rrl rru iil iiu ril riu f1 f2 f3 f4 : ℝ)
    (hrr : rrl ≤ z.r * U * (z.r * U) ∧ z.r * U * (z.r * U) ≤ rru)
    (hii : iil ≤ z.i * U * (z.i * U) ∧ z.i * U * (z.i * U) ≤ iiu)
    (hri : ril ≤ z.r * U * (z.i * U) ∧ z.r * U * (z.i * U) ≤ riu)
    (h1 : f1 * U ≤ rrl - iiu) (h2 : rru - iil ≤ (f2 + 1) * U)
    (h3 : f3 * U ≤ 2 * ril) (h4 : 2 * riu ≤ (f4 + 1) * U) :
    f1 + cr ≤ (mandelbrot.func1 z { r := cr / U, i := ci / U }).r * U ∧
    (mandelbrot.func1 z { r := cr / U, i := ci / U }).r * U ≤ f2 + 1 + cr ∧
    f3 + ci ≤ (mandelbrot.func1 z { r := cr / U, i := ci / U }).i * U ∧
    (mandelbrot.func1 z { r := cr / U, i := ci / U }).i * U ≤ f4 + 1 + ci := by
  have hU0 : U ≠ 0 := ne_of_gt hU
  have er : (mandelbrot.func1 z { r := cr / U, i := ci / U }).r * U
      = (z.r * U * (z.r * U) - z.i * U * (z.i * U)) / U + cr := by
    simp only [mandelbrot.func1]
    field_simp
    ring
  have ei : (mandelbrot.func1 z { r := cr / U, i := ci / U }).i * U
      = 2 * (z.r * U * (z.i * U)) / U + ci := by
    simp only [mandelbrot.func1]
    field_simp
    ring
  rw [er, ei]
  refine ⟨?_, ?_, ?_, ?_⟩
  · have := (le_div_iff₀ hU).2
      (show f1 * U ≤ z.r * U * (z.r * U) - z.i * U * (z.i * U) by linarith [hrr.1, hii.2])
    linarith
  · have := (div_le_iff₀ hU).2
      (show z.r * U * (z.r * U) - z.i * U * (z.i * U) ≤ (f2 + 1) * U by
        linarith [hrr.2, hii.1])
    linarith
  · have := (le_div_iff₀ hU).2
      (show f3 * U ≤ 2 * (z.r * U * (z.i * U)) by linarith [hri.1])
    linarith
  · have := (div_le_iff₀ hU).2
      (show 2 * (z.r * U * (z.i * U)) ≤ (f4 + 1) * U by linarith [hri.2])
    linarith

theorem box_step_contains (cr ci : Int) (b : Box) (z : cplx ℝ) (hb : b.contains z) :
    (Box.step cr ci b).contains
      (mandelbrot.func1 z { r := (cr : ℝ) / (Box.unit : ℝ), i := (ci : ℝ) / (Box.unit : ℝ) }) := by
  obtain ⟨h1, h2, h3, h4⟩ := hb
  have hrr := box_mul_bounds b.rl b.ru b.rl b.ru _ _ h1 h2 h1 h2
  have hii := box_mul_bounds b.il b.iu b.il b.iu _ _ h3 h4 h3 h4
  have hri := box_mul_bounds b.rl b.ru b.il b.iu _ _ h1 h2 h3 h4
  have f1 := box_floor ((Box.mul b.rl b.ru b.rl b.ru).1 - (Box.mul b.il b.iu b.il b.iu).2)
  have f2 := box_floor ((Box.mul b.rl b.ru b.rl b.ru).2 - (Box.mul b.il b.iu b.il b.iu).1)
  have f3 := box_floor (2 * (Box.mul b.rl b.ru b.il b.iu).1)
  have f4 := box_floor (2 * (Box.mul b.rl b.ru b.il b.iu).2)
  have key := step_bounds (Box.unit : ℝ) box_unit_pos z (cr : ℝ) (ci : ℝ) _ _ _ _ _ _
    _ _ _ _ hrr hii hri
    (by have := f1.1; rw [Int.cast_sub] at this; exact this)
    (by have := f2.2; rw [Int.cast_sub, Int.cast_add, Int.cast_one] at this; exact this)
    (by have := f3.1; rw [Int.cast_mul, Int.cast_ofNat] at this; exact this)
    (by have := f4.2; rw [Int.cast_mul, Int.cast_ofNat, Int.cast_add, Int.cast_one] at this
        exact this)
  unfold Box.contains Box.step
  simp only [Int.cast_add, Int.cast_one]
  exact key

theorem box_orbit_contains (cr ci : Int) (n : Nat) :
    (Box.orbit cr ci n).contains
      (mandelbrot.orbit
        { r := (cr : ℝ) / (Box.unit : ℝ), i := (ci : ℝ) / (Box.unit : ℝ) } n) := by
  induction n with
  | zero => simp [Box.orbit, Box.contains, mandelbrot.orbit]
  | succ n ih => exact box_step_contains cr ci _ _ ih

theorem sq_le_max_sq (l u x : ℝ) (h1 : l ≤ x) (h2 : x ≤ u) : x * x ≤ max (l * l) (u * u) := by
  rcases le_total 0 x with hx | hx
  · exact (mul_le_mul h2 h2 hx (hx.trans h2)).trans (le_max_right _ _)
  · have : x * x ≤ l * l := by nlinarith
    exact this.trans (le_max_left _ _)

theorem box_small_sound (b : Box) (z : cplx ℝ) (hb : b.contains z) (hs : b.small = true) :
    ¬ z.r * z.r + z.i * z.i > 10000 := by
  obtain ⟨h1, h2, h3, h4⟩ := hb
  have hU := box_unit_pos
  have hr := sq_le_max_sq _ _ _ h1 h2
  have hi := sq_le_max_sq _ _ _ h3 h4
  have hs' : max (b.rl * b.rl) (b.ru * b.ru) + max (b.il * b.il) (b.iu * b.iu)
      ≤ 10000 * (Box.unit * Box.unit) := by
    simpa [Box.small] using hs
  have hsR : max ((b.rl : ℝ) * b.rl) (b.ru * b.ru) + max ((b.il : ℝ) * b.il) (b.iu * b.iu)
      ≤ 10000 * ((Box.unit : ℝ) * (Box.unit : ℝ)) := by
    exact_mod_cast hs'
  intro hgt
  have hUU : 0 < (Box.unit : ℝ) * (Box.unit : ℝ) := mul_pos hU hU
  nlinarith

theorem box_large_sound (b : Box) (z : cplx ℝ) (hb : b.contains z) (hl : b.large = true) :
    z.r * z.r + z.i * z.i > 10000 := by
  obtain ⟨_, _, h3, _⟩ := hb
  have hU := box_unit_pos
  have hl' : 0 < b.il ∧ 10000 * (Box.unit * Box.unit) < b.il * b.il := by
    simpa [Box.large] using hl
  have hpos : (0 : ℝ) < (b.il : ℝ) := by exact_mod_cast hl'.1
  have hbig : 10000 * ((Box.unit : ℝ) * (Box.unit : ℝ)) < (b.il : ℝ) * (b.il : ℝ) := by
    exact_mod_cast hl'.2
  have hUU : 0 < (Box.unit : ℝ) * (Box.unit : ℝ) := mul_pos hU hU
  have hsq : (b.il : ℝ) * (b.il : ℝ) ≤ z.i * (Box.unit : ℝ) * (z.i * (Box.unit : ℝ)) :=
    mul_le_mul h3 h3 hpos.le (hpos.le.trans h3)
  nlinarith [mul_self_nonneg z.r]

theorem text_sample_34_16 :
    (mandelbrot.sample 34 16 : cplx ℝ)
      = { r := ((-64 * 10 ^ 22 : Int) : ℝ) / (Box.unit : ℝ),
          i := ((-4 * 10 ^ 23 : Int) : ℝ) / (Box.unit : ℝ) } := by
  simp only [mandelbrot.sample, Box.unit, cplx.mk.injEq]
  constructor <;> norm_num

set_option maxRecDepth 100000 in
theorem box_orbit_34_16_steps :
    ∀ m < 52, ((Box.orbit (-64 * 10 ^ 22) (-4 * 10 ^ 23) m).small = true ↔ m < 51) ∧
      (m = 51 → (Box.orbit (-64 * 10 ^ 22) (-4 * 10 ^ 23) m).large = true) := by
  decide

theorem box_orbit_34_16_small :
    ∀ m < 51, (Box.orbit (-64 * 10 ^ 22) (-4 * 10 ^ 23) m).small = true :=
  fun m hm => (box_orbit_34_16_steps m (by omega)).1.mpr hm

theorem box_orbit_34_16_large :
    (Box.orbit (-64 * 10 ^ 22) (-4 * 10 ^ 23) 51).large = true :=
  (box_orbit_34_16_steps 51 (by omega)).2 rfl

theorem text_orbit_34_16 :
    mandelbrot.modulus_complex Real.sqrt
      (mandelbrot.orbit (mandelbrot.sample 34 16 : cplx ℝ) 51) > 100 ∧
    ∀ m, 1 ≤ m → m < 51 →
      ¬ mandelbrot.modulus_complex Real.sqrt
        (mandelbrot.orbit (mandelbrot.sample 34 16 : cplx ℝ) m) > 100 := by
  rw [text_sample_34_16]
  constructor
  · rw [real_text_test]
    exact box_large_sound _ _ (box_orbit_contains _ _ 51) box_orbit_34_16_large
  · intro m _ hm
    rw [real_text_test]
    exact box_small_sound _ _ (box_orbit_contains _ _ m) (box_orbit_34_16_small m hm)

theorem text_pixel_34_16 :
    mandelbrot.main_pixel Real.sqrt (mandelbrot.sample 34 16 : cplx ℝ) = ':' := by
  rw [text_pixel_first_escape Real.sqrt _ 51 (by norm_num) (by norm_num) text_orbit_34_16.1
    text_orbit_34_16.2]
  rfl

end BoxHelpers


section ThreadedHelpers

variable {K : Type} [LinearOrderedField K]

/-- The text loop on the variables computes what `mandelbrot.main_iter` computes from the
values of `r`, `div` and `iter` it is started on, and leaves `c1` and `c2` alone. -/
theorem text_body_iter_eq (sqrt : K → K) (n : Nat) :
    ∀ (v : mandelbrot.Locals K) (ts : List (cplx K)),
      mandelbrot.body_iter sqrt n v =
        { c1 := v.c1, c2 := v.c2,
          r := (mandelbrot.main_iter sqrt v.c2 n
            { r := v.r, div := v.div, iter := v.iter, terms := ts }).r,
          div := (mandelbrot.main_iter sqrt v.c2 n
            { r := v.r, div := v.div, iter := v.iter, terms := ts }).div,
          iter := (mandelbrot.main_iter sqrt v.c2 n
            { r := v.r, div := v.div, iter := v.iter, terms := ts }).iter } := by
  induction n with
  | zero => intro v ts; rfl
  | succ n ih =>
    intro v ts
    rw [mandelbrot.body_iter, mandelbrot.main_iter]
    by_cases h : mandelbrot.modulus_complex sqrt (mandelbrot.func1 v.r v.c2) > 100
    · simp only [h, if_true]
    · simp only [h, if_false]
      rw [ih _ (ts ++ [mandelbrot.func1 v.r v.c2])]

/-- The graphics loop on the variables computes what `MANDEL.main_iter` computes from the
values of `r`, `div` and `iter` it is started on, and leaves `c1` and `c2` alone. -/
theorem gfx_body_iter_eq (sqrt : K → K) (n : Nat) :
    ∀ (v : MANDEL.Locals K) (ts : List (cplx K)),
      (MANDEL.body_iter sqrt n v).c1 = v.c1 ∧
      (MANDEL.body_iter sqrt n v).c2 = v.c2 ∧
      (MANDEL.body_iter sqrt n v).r = (MANDEL.main_iter sqrt v.c2 n
            { r := v.r, div := v.div, iter := v.iter, terms := ts }).r ∧
      (MANDEL.body_iter sqrt n v).div = (MANDEL.main_iter sqrt v.c2 n
            { r := v.r, div := v.div, iter := v.iter, terms := ts }).div ∧
      (MANDEL.body_iter sqrt n v).iter = (MANDEL.main_iter sqrt v.c2 n
            { r := v.r, div := v.div, iter := v.iter, terms := ts }).iter := by
  induction n with
  | zero => intro v ts; exact ⟨rfl, rfl, rfl, rfl, rfl⟩
  | succ n ih =>
    intro v ts
    rw [MANDEL.body_iter, MANDEL.main_iter]
    by_cases h : MANDEL.cplx_modulus sqrt (MANDEL.func1 v.r v.c2) ≥ MANDEL.CONVLIMIT
    · rw [if_pos h, if_pos h]
      exact ⟨rfl, rfl, rfl, rfl, rfl⟩
    · rw [if_neg h, if_neg h]
      exact ih _ (ts ++ [MANDEL.func1 v.r v.c2])

/-- One pass of the text loop body: `c1` is kept, and with `c1 = (0,0)` the variables
`r`, `div`, `iter` end as in `mandelbrot.main_eval` and the character written is
`mandelbrot.main_pixel` of the constant `(x, y)`, whatever `c2`, `r`, `div` and `iter`
held before. -/
theorem text_body_eq (sqrt : K → K) (x y : K) (v : mandelbrot.Locals K)
    (hc1 : v.c1 = { r := 0, i := 0 }) :
    (mandelbrot.main_body sqrt x y v).1.c1 = v.c1 ∧
    (mandelbrot.main_body sqrt x y v).1.r = (mandelbrot.main_eval sqrt { r := x, i := y }).r ∧
    (mandelbrot.main_body sqrt x y v).1.div
      = (mandelbrot.main_eval sqrt { r := x, i := y }).div ∧
    (mandelbrot.main_body sqrt x y v).2 = mandelbrot.main_pixel sqrt { r := x, i := y } := by
  unfold mandelbrot.main_body mandelbrot.main_pixel mandelbrot.main_eval
  simp only
  rw [text_body_iter_eq sqrt 100 _ []]
  simp only [hc1]
  exact ⟨trivial, trivial, trivial, trivial⟩

theorem text_body_c1 (sqrt : K → K) (x y : K) (v : mandelbrot.Locals K) :
    (mandelbrot.main_body sqrt x y v).1.c1 = v.c1 := by
  unfold mandelbrot.main_body
  simp only
  rw [text_body_iter_eq sqrt 100 _ []]

theorem text_run_body_c1 (sqrt : K → K) (l : List (K × K)) :
    ∀ (v : mandelbrot.Locals K) (out : List Char),
      (mandelbrot.run_body sqrt l v out).1.c1 = v.c1 := by
  induction l with
  | nil => intro v out; rfl
  | cons p rest ih =>
    intro v out
    rw [mandelbrot.run_body, ih, text_body_c1]

theorem gfx_body_c1 (sqrt : K → K) (x y : K) (px py : Int) (v : MANDEL.Locals K)
    (q : List (Int × Int × Int)) :
    (MANDEL.main_body sqrt x y px py v q).1.c1 = v.c1 := by
  unfold MANDEL.main_body
  simp only
  rw [(gfx_body_iter_eq sqrt MANDEL.MAXITERATIONS _ []).1]

/-- One pass of the graphics loop body with `c1 = (0,0)`: `r`, `div` and `iter` end as in
`MANDEL.main_eval` of the constant `(x, y)`, and one call for the pixel with colour `5` is
added exactly when that `div` is not `0`, whatever `c2`, `r`, `modulus`, `div` and `iter`
held before. -/
theorem gfx_body_eq (sqrt : K → K) (x y : K) (px py : Int) (v : MANDEL.Locals K)
    (q : List (Int × Int × Int)) (hc1 : v.c1 = { r := 0, i := 0 }) :
    (MANDEL.main_body sqrt x y px py v q).1.r = (MANDEL.main_eval sqrt { r := x, i := y }).r ∧
    (MANDEL.main_body sqrt x y px py v q).1.div
      = (MANDEL.main_eval sqrt { r := x, i := y }).div ∧
    (MANDEL.main_body sqrt x y px py v q).2
      = if (MANDEL.main_eval sqrt { r := x, i := y }).div ≠ 0 then q ++ [(px, py, 5)]
        else q := by
  have h := gfx_body_iter_eq sqrt MANDEL.MAXITERATIONS
    ({ c1 := v.c1, c2 := { r := x, i := y }, r := v.c1, modulus := v.modulus, div := 0,
       iter := 0 } : MANDEL.Locals K) []
  simp only [hc1] at h
  unfold MANDEL.main_body MANDEL.main_eval MANDEL.graphics_plot_pixel
  simp only [hc1]
  exact ⟨h.2.2.1, h.2.2.2.1, by rw [h.2.2.2.1]⟩

theorem gfx_run_body_c1 (sqrt : K → K) (l : List (K × K × Int × Int)) :
    ∀ (v : MANDEL.Locals K) (q : List (Int × Int × Int)),
      (MANDEL.run_body sqrt l v q).1.c1 = v.c1 := by
  induction l with
  | nil => intro v q; rfl
  | cons p rest ih =>
    intro v q
    rw [MANDEL.run_body, ih, gfx_body_c1]

end ThreadedHelpers


section TieHelpers

end TieHelpers


section Column6

end Column6


section Binary64Helpers

variable {K : Type} [LinearOrderedField K]

set_option maxRecDepth 100000 in
theorem text_xs64_guard_iff :
    ∀ k < 101, (mandelbrot.xs64 k < 2 * mandelbrot.unit64 ↔ k < 100) := by
  decide

set_option maxRecDepth 100000 in
theorem text_ys64_guard_iff :
    ∀ k < 41, (mandelbrot.ys64 k < 2 * mandelbrot.unit64 ↔ k < 40) := by
  decide

theorem text_xs64_guard (k : Nat) (hk : k < 100) :
    mandelbrot.xs64 k < 2 * mandelbrot.unit64 :=
  (text_xs64_guard_iff k (by omega)).mpr hk

theorem text_xs64_stop : ¬ mandelbrot.xs64 100 < 2 * mandelbrot.unit64 :=
  fun h => absurd ((text_xs64_guard_iff 100 (by omega)).mp h) (by omega)

theorem text_ys64_guard (k : Nat) (hk : k < 40) :
    mandelbrot.ys64 k < 2 * mandelbrot.unit64 :=
  (text_ys64_guard_iff k (by omega)).mpr hk

theorem text_ys64_stop : ¬ mandelbrot.ys64 40 < 2 * mandelbrot.unit64 :=
  fun h => absurd ((text_ys64_guard_iff 40 (by omega)).mp h) (by omega)

set_option maxRecDepth 100000 in
theorem text_xs64_increasing : ∀ k < 100, mandelbrot.xs64 k < mandelbrot.xs64 (k + 1) := by
  decide

set_option maxRecDepth 100000 in
theorem text_ys64_increasing : ∀ k < 40, mandelbrot.ys64 k < mandelbrot.ys64 (k + 1) := by
  decide

theorem text_row64_aux (sqrt : K → K) (y : Int) (d : Nat) :
    ∀ (k fuel : Nat) (o : mandelbrot.Console K), k + d = 100 → d < fuel →
      mandelbrot.main_row64 sqrt y fuel (mandelbrot.xs64 k) o = some
        { out := o.out ++ (List.range' k d).map
            (fun (px : Nat) => mandelbrot.main_pixel sqrt
              { r := (mandelbrot.xs64 px : K) / (mandelbrot.unit64 : K),
                i := (y : K) / (mandelbrot.unit64 : K) }),
          sampled := o.sampled ++ (List.range' k d).map
            (fun (px : Nat) =>
              ({ r := (mandelbrot.xs64 px : K) / (mandelbrot.unit64 : K),
                 i := (y : K) / (mandelbrot.unit64 : K) } : cplx K)) } := by
  induction d with
  | zero =>
    intro k fuel o hk hf
    obtain ⟨f, rfl⟩ : ∃ f, fuel = f + 1 := ⟨fuel - 1, by omega⟩
    have hk' : k = 100 := by omega
    subst hk'
    rw [mandelbrot.main_row64, if_neg text_xs64_stop]
    simp
  | succ d ih =>
    intro k fuel o hk hf
    obtain ⟨f, rfl⟩ : ∃ f, fuel = f + 1 := ⟨fuel - 1, by omega⟩
    rw [mandelbrot.main_row64, if_pos (text_xs64_guard k (by omega))]
    have hx : round53 (mandelbrot.xs64 k + mandelbrot.step_x64)
        = mandelbrot.xs64 (k + 1) := rfl
    simp only [hx]
    rw [ih (k + 1) f _ (by omega) (by omega)]
    have e : List.range' k (d + 1) = k :: List.range' (k + 1) d := rfl
    rw [e]
    simp

theorem text_rows64_aux (sqrt : K → K) (fuel : Nat) (hfuel : 100 < fuel) (d : Nat) :
    ∀ (k f : Nat) (o : mandelbrot.Console K), k + d = 40 → d < f →
      mandelbrot.main_rows64 sqrt fuel f (mandelbrot.ys64 k) o = some
        { out := o.out ++ (List.range' k d).flatMap
            (fun py => mandelbrot.rowSymbols64 sqrt py ++ ['\n']),
          sampled := o.sampled ++ (List.range' k d).flatMap
            (fun py => (List.range 100).map (fun px => mandelbrot.sample64 px py)) } := by
  induction d with
  | zero =>
    intro k f o hk hf
    obtain ⟨f, rfl⟩ : ∃ f', f = f' + 1 := ⟨f - 1, by omega⟩
    have hk' : k = 40 := by omega
    subst hk'
    rw [mandelbrot.main_rows64, if_neg text_ys64_stop]
    simp
  | succ d ih =>
    intro k f o hk hf
    obtain ⟨f, rfl⟩ : ∃ f', f = f' + 1 := ⟨f - 1, by omega⟩
    rw [mandelbrot.main_rows64, if_pos (text_ys64_guard k (by omega))]
    have h0 : (-2 * mandelbrot.unit64 : Int) = mandelbrot.xs64 0 := rfl
    rw [h0, text_row64_aux sqrt (mandelbrot.ys64 k) 100 0 fuel o rfl hfuel]
    have hy : round53 (mandelbrot.ys64 k + mandelbrot.step_y64)
        = mandelbrot.ys64 (k + 1) := rfl
    simp only [hy]
    rw [ih (k + 1) f _ (by omega) (by omega)]
    have e : List.range' k (d + 1) = k :: List.range' (k + 1) d := rfl
    rw [e]
    simp only [List.flatMap_cons, mandelbrot.rowSymbols64, mandelbrot.sample64,
      List.append_assoc, List.range_eq_range']

/-- The text program with double counters and enough fuel: forty rows of a hundred
symbols and a line break. -/
theorem text64_eq (sqrt : K → K) (fuel : Nat) (hfuel : 100 < fuel) :
    mandelbrot.main64 sqrt fuel = some
      { out := (List.range 40).flatMap (fun py => mandelbrot.rowSymbols64 sqrt py ++ ['\n']),
        sampled := (List.range 40).flatMap
          (fun py => (List.range 100).map (fun px => mandelbrot.sample64 px py)) } := by
  have h := text_rows64_aux sqrt fuel hfuel 40 0 fuel { out := [], sampled := [] }
    rfl (by omega)
  have h0 : (-2 * mandelbrot.unit64 : Int) = mandelbrot.ys64 0 := rfl
  rw [mandelbrot.main64, h0, h]
  rw [List.range_eq_range' (n := 40)]
  exact congrArg₂ (fun a b => some (mandelbrot.Console.mk a b)) (List.nil_append _)
    (List.nil_append _)

theorem text_row64_length (sqrt : K → K) (py : Nat) :
    (mandelbrot.rowSymbols64 sqrt py ++ ['\n']).length = 101 := by
  simp [mandelbrot.rowSymbols64]

theorem text_row64_getElem? (sqrt : K → K) (px py : Nat) (hpx : px < 100) :
    (mandelbrot.rowSymbols64 sqrt py ++ ['\n'])[px]?
      = some (mandelbrot.main_pixel sqrt (mandelbrot.sample64 px py)) := by
  rw [List.getElem?_append_left (by simp [mandelbrot.rowSymbols64]; exact hpx)]
  simp [mandelbrot.rowSymbols64, List.getElem?_range hpx]

theorem text_row64_count_newline (sqrt : K → K) (py : Nat) :
    (mandelbrot.rowSymbols64 sqrt py ++ ['\n']).count '\n' = 1 := by
  have h0 : (mandelbrot.rowSymbols64 sqrt py).count '\n' = 0 := by
    rw [List.count_eq_zero]
    intro hmem
    simp only [mandelbrot.rowSymbols64, List.mem_map] at hmem
    obtain ⟨px, _, hpx⟩ := hmem
    exact text_symbol_ne_newline _ hpx
  rw [List.count_append, h0]
  rfl

end Binary64Helpers

section Binary64Bounds

variable {K : Type} [LinearOrderedField K]

theorem text64_sampled_getElem? (px py : Nat) (hpx : px < 100) (hpy : py < 40) :
    ((List.range 40).flatMap
        (fun py => (List.range 100).map
          (fun px => (mandelbrot.sample64 px py : cplx K))))[py * 100 + px]?
      = some (mandelbrot.sample64 px py) := by
  rw [flatMap_range_getElem? _ 100 (fun r => by simp) 40 py px hpy hpx]
  simp [List.getElem?_range hpx]

end Binary64Bounds

section Binary64Values

set_option maxRecDepth 100000 in
theorem text_xs64_values :
    ∀ k < 101, (k = 50 → mandelbrot.xs64 k = 178) ∧
      (mandelbrot.xs64 k = 2 * mandelbrot.unit64 + 320 ↔ k = 100) := by
  decide

set_option maxRecDepth 100000 in
theorem text_ys64_values :
    ∀ k < 41, (k = 20 → mandelbrot.ys64 k = 92) ∧
      (mandelbrot.ys64 k = 2 * mandelbrot.unit64 + 192 ↔ k = 40) := by
  decide

theorem text_xs64_100 : mandelbrot.xs64 100 = 2 * mandelbrot.unit64 + 320 :=
  (text_xs64_values 100 (by omega)).2.mpr rfl

theorem text_ys64_40 : mandelbrot.ys64 40 = 2 * mandelbrot.unit64 + 192 :=
  (text_ys64_values 40 (by omega)).2.mpr rfl

end Binary64Values


section GfxBinary64Helpers

variable {K : Type} [LinearOrderedField K]

end GfxBinary64Helpers

/-! The claims of the specification, C1 to C10. -/

section Claims

variable {K : Type} [LinearOrderedField K]

/-- C1 (graphics evaluator, `MANDEL.C` lines 163-181).  With `z_0 = (0,0)` and
`z_n = func1(z_{n-1}, c)`, the iteration loop ends with `div = 1` exactly when some
`n` in `1..100` has `cplx_modulus(z_n) >= 100`; in that case, for the least such `n`,
the loop ends with `iter + 1 = n`, with `r = z_n` and with `func1` applied exactly `n`
times (the computed terms are `z_1, ..., z_n` and nothing later); when no such `n`
exists `func1` is applied exactly 100 times and `div` stays `0`. -/
theorem graphics_evaluator_first_escape (sqrt : K → K) (c : cplx K) :
    ((MANDEL.main_eval sqrt c).div = 1 ↔
      ∃ n, 1 ≤ n ∧ n ≤ 100 ∧ MANDEL.cplx_modulus sqrt (MANDEL.orbit c n) ≥ 100) ∧
    (∀ n, 1 ≤ n → n ≤ 100 → MANDEL.cplx_modulus sqrt (MANDEL.orbit c n) ≥ 100 →
      (∀ m, 1 ≤ m → m < n → ¬ MANDEL.cplx_modulus sqrt (MANDEL.orbit c m) ≥ 100) →
      (MANDEL.main_eval sqrt c).div = 1 ∧
      (MANDEL.main_eval sqrt c).iter + 1 = n ∧
      (MANDEL.main_eval sqrt c).r = MANDEL.orbit c n ∧
      (MANDEL.main_eval sqrt c).terms = (List.range n).map (fun i => MANDEL.orbit c (i + 1)) ∧
      (MANDEL.main_eval sqrt c).terms.length = n) ∧
    ((¬ ∃ n, 1 ≤ n ∧ n ≤ 100 ∧ MANDEL.cplx_modulus sqrt (MANDEL.orbit c n) ≥ 100) →
      (MANDEL.main_eval sqrt c).div = 0 ∧
      (MANDEL.main_eval sqrt c).terms = (List.range 100).map (fun i => MANDEL.orbit c (i + 1)) ∧
      (MANDEL.main_eval sqrt c).terms.length = 100) := by
  have hno : (¬ ∃ n, 1 ≤ n ∧ n ≤ 100 ∧ MANDEL.cplx_modulus sqrt (MANDEL.orbit c n) ≥ 100) →
      MANDEL.main_eval sqrt c =
        { r := MANDEL.orbit c 100, div := 0, iter := 100,
          terms := (List.range 100).map (fun i => MANDEL.orbit c (i + 1)) } :=
    fun h => gfx_eval_no_escape sqrt c (fun n h1 h2 h3 => h ⟨n, h1, h2, h3⟩)
  refine ⟨gfx_eval_div_iff sqrt c, ?_, ?_⟩
  · intro n h1 h100 he hmin
    rw [gfx_eval_escape sqrt c n h1 h100 he hmin]
    refine ⟨rfl, ?_, rfl, rfl, ?_⟩
    · simp only
      omega
    · simp only [List.length_map, List.length_range]
  · intro h
    rw [hno h]
    refine ⟨rfl, rfl, ?_⟩
    simp only [List.length_map, List.length_range]

/-- C5 (defect of `mandelbrot.c`, evaluated on the program's own grid and at `c = (101, 0)`).
The claim is the banding `.` for `1..25`, `:` for `26..50`, `*` for `51..75`, `@` for
`76..100` over the one-based escape index `n`, and no blank for a diverging point.  The
loop records the zero-based `iter`.  The pixel in column 34 of row 16 samples
`c = (-0.64, -0.4)`; its orbit first exceeds `100` at the 51st application of `func1`
(one-based band `*`), the loop records `div = 50` and the program prints `:`.  For
`c = (101, 0)` the first term already exceeds `100`, the loop records `div = 0` and the
blank is printed for a diverging point. -/
theorem text_band_off_by_one :
    (∃ o, mandelbrot.main Real.sqrt 101 = some o ∧
      mandelbrot.symbolAt o.out 34 16 = some ':') ∧
    (mandelbrot.sample 34 16 : cplx ℝ) = { r := -64 / 100, i := -4 / 10 } ∧
    mandelbrot.modulus_complex Real.sqrt
      (mandelbrot.orbit (mandelbrot.sample 34 16 : cplx ℝ) 51) > 100 ∧
    (∀ m, 1 ≤ m → m < 51 →
      ¬ mandelbrot.modulus_complex Real.sqrt
        (mandelbrot.orbit (mandelbrot.sample 34 16 : cplx ℝ) m) > 100) ∧
    (mandelbrot.main_eval Real.sqrt (mandelbrot.sample 34 16 : cplx ℝ)).div = 50 ∧
    mandelbrot.modulus_complex Real.sqrt
      (mandelbrot.orbit ({ r := 101, i := 0 } : cplx ℝ) 1) > 100 ∧
    (mandelbrot.main_eval Real.sqrt { r := 101, i := 0 }).div = 0 ∧
    (mandelbrot.main_eval Real.sqrt { r := 101, i := 0 }).terms = [{ r := 101, i := 0 }] ∧
    mandelbrot.main_pixel Real.sqrt { r := 101, i := 0 } = ' ' := by
  have o1 := text_orbit_101
  have he : mandelbrot.modulus_complex Real.sqrt
      (mandelbrot.orbit ({ r := 101, i := 0 } : cplx ℝ) 1) > 100 := by
    rw [real_text_test, o1]; norm_num
  have ht := text_eval_escape Real.sqrt ({ r := 101, i := 0 } : cplx ℝ) 1 le_rfl (by norm_num)
    he (fun m hm1 hm2 => by omega)
  have hs : (mandelbrot.sample 34 16 : cplx ℝ) = { r := -64 / 100, i := -4 / 10 } := by
    simp only [mandelbrot.sample, cplx.mk.injEq]
    constructor <;> norm_num
  refine ⟨⟨_, text_eq Real.sqrt 101 (by decide), ?_⟩, hs, text_orbit_34_16.1,
    text_orbit_34_16.2, ?_, he, ?_, ?_, ?_⟩
  · simp only
    rw [text_symbolAt Real.sqrt 34 16 (by decide) (by decide), text_pixel_34_16]
  · rw [text_eval_escape Real.sqrt _ 51 (by norm_num) (by norm_num) text_orbit_34_16.1
      text_orbit_34_16.2]
    rfl
  · rw [ht]; rfl
  · rw [ht]
    simp only [List.range_succ, List.range_zero, List.nil_append, List.map_cons, List.map_nil,
      zero_add]
    rw [o1]
  · unfold mandelbrot.main_pixel
    rw [ht]; rfl

/-- C6.  Bounded points map to the interior unit in both variants.  If none of the first
100 orbit terms of `c` passes the text loop's test, the text renderer writes the blank for
that pixel; if none passes the graphics loop's test, the graphics renderer makes no
`graphics_plot_pixel` call for that pixel; and whenever the graphics loop detected
divergence (some term passed its test, that is `div = 1`) the renderer makes exactly one
call, for that pixel and with colour index `5`. -/
theorem bounded_maps_to_interior (sqrt : K → K) (c : cplx K) (px py : Int)
    (o : MANDEL.Screen K) :
    ((∀ n, 1 ≤ n → n ≤ 100 →
        ¬ mandelbrot.modulus_complex sqrt (mandelbrot.orbit c n) > 100) →
      mandelbrot.main_pixel sqrt c = ' ') ∧
    ((∀ n, 1 ≤ n → n ≤ 100 → ¬ MANDEL.cplx_modulus sqrt (MANDEL.orbit c n) ≥ 100) →
      (MANDEL.main_pixel sqrt c px py o).plots = o.plots) ∧
    ((∃ n, 1 ≤ n ∧ n ≤ 100 ∧ MANDEL.cplx_modulus sqrt (MANDEL.orbit c n) ≥ 100) →
      (MANDEL.main_pixel sqrt c px py o).plots = o.plots ++ [(px, py, 5)]) ∧
    ((MANDEL.main_eval sqrt c).div = 1 →
      (MANDEL.main_pixel sqrt c px py o).plots = o.plots ++ [(px, py, 5)]) := by
  have hdiv : (MANDEL.main_eval sqrt c).div = 1 →
      (MANDEL.main_pixel sqrt c px py o).plots = o.plots ++ [(px, py, 5)] := by
    intro h
    simp [MANDEL.main_pixel, MANDEL.graphics_plot_pixel, h]
  refine ⟨text_pixel_no_escape sqrt c, ?_, ?_, hdiv⟩
  · intro h
    have h0 : (MANDEL.main_eval sqrt c).div = 0 := by
      rw [gfx_eval_no_escape sqrt c h]
    simp [MANDEL.main_pixel, h0]
  · intro h
    exact hdiv ((gfx_eval_div_iff sqrt c).2 h)

/-- Witness for C6: the origin `c = (0, 0)` over the reals is bounded in both variants, it is
printed as the blank and it is not plotted. -/
theorem bounded_maps_to_interior_origin :
    mandelbrot.main_pixel Real.sqrt ({ r := 0, i := 0 } : cplx ℝ) = ' ' ∧
    (MANDEL.main_pixel Real.sqrt ({ r := 0, i := 0 } : cplx ℝ) 7 3
      { plots := [], sampled := [] }).plots = [] :=
  ⟨(bounded_maps_to_interior Real.sqrt { r := 0, i := 0 } 7 3 { plots := [], sampled := [] }).1
      (fun n _ _ => real_text_zero_bounded n),
    (bounded_maps_to_interior Real.sqrt { r := 0, i := 0 } 7 3 { plots := [], sampled := [] }).2.1
      (fun n _ _ => real_gfx_zero_bounded n)⟩

/-- C8.  Shape of the text output, with the loop counters `x` and `y` as the doubles of
the program.  With enough fuel the program ends and has written exactly 40 rows, each of
exactly 100 symbols followed by one line break: 4040 characters, of which exactly 40 are
line breaks, and 4000 sampled constants.  To the constant sampled at position
`py*100 + px` (row-major order) belongs the character at column `px` of row `py`, which
is one of the five symbols, and the character after the 100 symbols of a row is the line
break.  The rows come in order of increasing `y` and the symbols of a row in order of
increasing `x`.  The column loop stops because the 100 rounded additions of `0.04` bring
`x` to `2 + 320 * 2^-57 > 2`, and the row loop because the 40 rounded additions of `0.10`
bring `y` to `2 + 192 * 2^-57 > 2`. -/
theorem text_output_shape_binary64 (sqrt : K → K) (fuel : Nat) (hfuel : 100 < fuel) :
    ∃ o, mandelbrot.main64 sqrt fuel = some o ∧
      o.out.length = 4040 ∧
      o.out.count '\n' = 40 ∧
      o.sampled.length = 4000 ∧
      (∀ (px py : Nat), px < 100 → py < 40 →
        ∃ c : cplx K, o.sampled[py * 100 + px]? = some c ∧
          c = { r := (mandelbrot.xs64 px : K) / (mandelbrot.unit64 : K),
                i := (mandelbrot.ys64 py : K) / (mandelbrot.unit64 : K) } ∧
          ∃ ch : Char, o.out[py * 101 + px]? = some ch ∧
            ch ∈ [' ', '.', ':', '*', '@']) ∧
      (∀ (py : Nat), py < 40 → o.out[py * 101 + 100]? = some '\n') ∧
      (∀ (px : Nat), px < 99 → mandelbrot.xs64 px < mandelbrot.xs64 (px + 1)) ∧
      (∀ (py : Nat), py < 39 → mandelbrot.ys64 py < mandelbrot.ys64 (py + 1)) ∧
      mandelbrot.xs64 100 = 2 * mandelbrot.unit64 + 320 ∧
      mandelbrot.ys64 40 = 2 * mandelbrot.unit64 + 192 := by
  refine ⟨_, text64_eq sqrt fuel hfuel, ?_, ?_, ?_, ?_, ?_,
    fun px hpx => text_xs64_increasing px (by omega),
    fun py hpy => text_ys64_increasing py (by omega), text_xs64_100, text_ys64_40⟩
  · simp only
    rw [flatMap_range_length _ 101 (text_row64_length sqrt)]
  · simp only
    rw [flatMap_range_count _ '\n' (text_row64_count_newline sqrt)]
  · simp only
    rw [flatMap_range_length _ 100 (fun r => by simp)]
  · intro px py hpx hpy
    refine ⟨mandelbrot.sample64 px py, text64_sampled_getElem? px py hpx hpy, rfl,
      mandelbrot.main_pixel sqrt (mandelbrot.sample64 px py), ?_, text_symbol_mem _⟩
    simp only
    rw [flatMap_range_getElem? _ 101 (text_row64_length sqrt) 40 py px hpy (by omega),
      text_row64_getElem? sqrt px py hpx]
  · intro py hpy
    simp only
    rw [flatMap_range_getElem? _ 101 (text_row64_length sqrt) 40 py 100 hpy (by omega),
      List.getElem?_append_right (by simp [mandelbrot.rowSymbols64])]
    simp [mandelbrot.rowSymbols64]

/-- Witness for C8: the statement at fuel 101 over the reals. -/
theorem text_output_shape_binary64_fuel_101 :
    ∃ o, mandelbrot.main64 Real.sqrt 101 = some o ∧
      o.out.length = 4040 ∧
      o.out.count '\n' = 40 ∧
      o.sampled.length = 4000 ∧
      (∀ (px py : Nat), px < 100 → py < 40 →
        ∃ c : cplx ℝ, o.sampled[py * 100 + px]? = some c ∧
          c = { r := (mandelbrot.xs64 px : ℝ) / (mandelbrot.unit64 : ℝ),
                i := (mandelbrot.ys64 py : ℝ) / (mandelbrot.unit64 : ℝ) } ∧
          ∃ ch : Char, o.out[py * 101 + px]? = some ch ∧
            ch ∈ [' ', '.', ':', '*', '@']) ∧
      (∀ (py : Nat), py < 40 → o.out[py * 101 + 100]? = some '\n') ∧
      (∀ (px : Nat), px < 99 → mandelbrot.xs64 px < mandelbrot.xs64 (px + 1)) ∧
      (∀ (py : Nat), py < 39 → mandelbrot.ys64 py < mandelbrot.ys64 (py + 1)) ∧
      mandelbrot.xs64 100 = 2 * mandelbrot.unit64 + 320 ∧
      mandelbrot.ys64 40 = 2 * mandelbrot.unit64 + 192 :=
  text_output_shape_binary64 Real.sqrt 101 (by decide)

/-- C9 (defect of `MANDEL.C`, evaluated on the CGA device, `getmaxx() = 319` and
`getmaxy() = 199`).  The claim is that only rows `pixel_y < H = 200` are evaluated and
plotted.  In exact arithmetic the loop header `y>=YTO` admits a 201st row: the program
evaluates `pixel_y = 200` with `c = (-1.6, -1.1)` at `pixel_x = 0` and calls
`graphics_plot_pixel(0, 200, 5)`, below the last device row `getmaxy() = 199`. -/
theorem graphics_row_below_device :
    ∃ o, MANDEL.main Real.sqrt 319 199 400 = some o ∧
      ((0 : Int), (200 : Int), ({ r := -8 / 5, i := -11 / 10 } : cplx ℝ)) ∈ o.sampled ∧
      ((0 : Int), (200 : Int), (5 : Int)) ∈ o.plots := by
  have h := gfx_eq Real.sqrt 320 200 (by norm_num) (by norm_num) 400 (by norm_num)
    (by norm_num)
  rw [show ((320 : Nat) : Int) - 1 = 319 by norm_num,
    show ((200 : Nat) : Int) - 1 = 199 by norm_num] at h
  have hs : (MANDEL.sample 320 200 0 200 : cplx ℝ) = { r := -8 / 5, i := -11 / 10 } := by
    simp only [MANDEL.sample, MANDEL.XFROM, MANDEL.XTO, MANDEL.YFROM, MANDEL.YTO,
      cplx.mk.injEq]
    constructor <;> norm_num
  refine ⟨_, h, ?_, ?_⟩
  · simp only [List.mem_flatMap, List.mem_map, List.mem_range]
    exact ⟨200, by norm_num, 0, by norm_num, by rw [hs]; rfl⟩
  · simp only [List.mem_flatMap, List.mem_range]
    refine ⟨200, by norm_num, 0, by norm_num, ?_⟩
    rw [hs, MANDEL.pixelPlots, gfx_eval_corner]
    simp

end Claims

/-! Auxiliary lemmas for the claims C11 to C19. -/

section ConjHelpers

variable {K : Type} [LinearOrderedField K]

theorem text_func1_conj (z c : cplx K) :
    mandelbrot.func1 z.conj c.conj = (mandelbrot.func1 z c).conj := by
  simp only [mandelbrot.func1, cplx.conj, cplx.mk.injEq]
  constructor <;> ring

theorem gfx_func1_conj (z c : cplx K) :
    MANDEL.func1 z.conj c.conj = (MANDEL.func1 z c).conj := by
  simp only [MANDEL.func1, cplx.conj, cplx.mk.injEq]
  constructor <;> ring

theorem text_modulus_conj_eq (sqrt : K → K) (z : cplx K) :
    mandelbrot.modulus_complex sqrt z.conj = mandelbrot.modulus_complex sqrt z := by
  unfold mandelbrot.modulus_complex cplx.conj
  congr 1
  ring

theorem gfx_modulus_conj_eq (sqrt : K → K) (z : cplx K) :
    MANDEL.cplx_modulus sqrt z.conj = MANDEL.cplx_modulus sqrt z := by
  unfold MANDEL.cplx_modulus cplx.conj
  congr 1
  ring

theorem text_iter_conj (sqrt : K → K) (c : cplx K) (n : Nat) :
    ∀ s : IterState K,
      mandelbrot.main_iter sqrt c.conj n s.conj = (mandelbrot.main_iter sqrt c n s).conj := by
  induction n with
  | zero => intro s; rfl
  | succ n ih =>
    intro s
    rw [mandelbrot.main_iter, mandelbrot.main_iter]
    have hr : (s.conj).r = s.r.conj := rfl
    simp only [hr, text_func1_conj, text_modulus_conj_eq]
    by_cases h : mandelbrot.modulus_complex sqrt (mandelbrot.func1 s.r c) > 100
    · simp only [h, if_true]
      simp [IterState.conj]
    · simp only [h, if_false]
      rw [← ih]
      simp [IterState.conj]

theorem gfx_iter_conj (sqrt : K → K) (c : cplx K) (n : Nat) :
    ∀ s : IterState K,
      MANDEL.main_iter sqrt c.conj n s.conj = (MANDEL.main_iter sqrt c n s).conj := by
  induction n with
  | zero => intro s; rfl
  | succ n ih =>
    intro s
    rw [MANDEL.main_iter, MANDEL.main_iter]
    have hr : (s.conj).r = s.r.conj := rfl
    simp only [hr, gfx_func1_conj, gfx_modulus_conj_eq]
    by_cases h : MANDEL.cplx_modulus sqrt (MANDEL.func1 s.r c) ≥ MANDEL.CONVLIMIT
    · simp only [h, if_true]
      simp [IterState.conj]
    · simp only [h, if_false]
      rw [← ih]
      simp [IterState.conj]

theorem iterstate_start_conj :
    ({ r := { r := 0, i := 0 }, div := 0, iter := 0, terms := [] } : IterState K).conj
      = { r := { r := 0, i := 0 }, div := 0, iter := 0, terms := [] } := by
  simp [IterState.conj, cplx.conj]

theorem text_eval_conj (sqrt : K → K) (c : cplx K) :
    mandelbrot.main_eval sqrt c.conj = (mandelbrot.main_eval sqrt c).conj := by
  unfold mandelbrot.main_eval
  rw [← text_iter_conj, iterstate_start_conj]

theorem gfx_eval_conj (sqrt : K → K) (c : cplx K) :
    MANDEL.main_eval sqrt c.conj = (MANDEL.main_eval sqrt c).conj := by
  unfold MANDEL.main_eval
  rw [← gfx_iter_conj, iterstate_start_conj]

end ConjHelpers

section LaterHelpers

variable {K : Type} [LinearOrderedField K]

theorem text_iter_at_program (sqrt : K → K) (c : cplx K) (n : Nat) :
    ∀ s : IterState K,
      mandelbrot.main_iter_at sqrt 100 c n s = mandelbrot.main_iter sqrt c n s := by
  induction n with
  | zero => intro s; rfl
  | succ n ih =>
    intro s
    rw [mandelbrot.main_iter_at, mandelbrot.main_iter]
    simp only [ih]

theorem gfx_iter_at_program (sqrt : K → K) (c : cplx K) (n : Nat) :
    ∀ s : IterState K,
      MANDEL.main_iter_at sqrt MANDEL.CONVLIMIT c n s = MANDEL.main_iter sqrt c n s := by
  induction n with
  | zero => intro s; rfl
  | succ n ih =>
    intro s
    rw [MANDEL.main_iter_at, MANDEL.main_iter]
    simp only [ih]

theorem real_text_modulus_zero :
    mandelbrot.modulus_complex Real.sqrt ({ r := 0, i := 0 } : cplx ℝ) = 0 := by
  simp [mandelbrot.modulus_complex]

theorem real_gfx_modulus_zero :
    MANDEL.cplx_modulus Real.sqrt ({ r := 0, i := 0 } : cplx ℝ) = 0 := by
  simp [MANDEL.cplx_modulus]

theorem text_func1_zero : mandelbrot.func1 ({ r := 0, i := 0 } : cplx K) { r := 0, i := 0 }
    = { r := 0, i := 0 } := by
  simp [mandelbrot.func1]

theorem gfx_func1_zero : MANDEL.func1 ({ r := 0, i := 0 } : cplx K) { r := 0, i := 0 }
    = { r := 0, i := 0 } := by
  simp [MANDEL.func1]

theorem real_text_iter_at_zero (T : ℝ) (hT : 0 < T) (N : Nat) :
    ∀ s : IterState ℝ, s.r = { r := 0, i := 0 } →
      (mandelbrot.main_iter_at Real.sqrt T { r := 0, i := 0 } N s).div = s.div ∧
      (mandelbrot.main_iter_at Real.sqrt T { r := 0, i := 0 } N s).terms.length
        = s.terms.length + N := by
  induction N with
  | zero => intro s _; exact ⟨rfl, rfl⟩
  | succ N ih =>
    intro s hs
    rw [mandelbrot.main_iter_at]
    have hn : ¬ mandelbrot.modulus_complex Real.sqrt
        (mandelbrot.func1 s.r { r := 0, i := 0 }) > T := by
      rw [hs, text_func1_zero, real_text_modulus_zero]
      exact not_lt.mpr hT.le
    simp only [hn, if_false]
    have := ih _ (show ({ r := mandelbrot.func1 s.r { r := 0, i := 0 }, div := s.div,
                          iter := s.iter + 1,
                          terms := s.terms ++ [mandelbrot.func1 s.r { r := 0, i := 0 }] }
                        : IterState ℝ).r = { r := 0, i := 0 } by
      show mandelbrot.func1 s.r { r := 0, i := 0 } = { r := 0, i := 0 }
      rw [hs, text_func1_zero])
    refine ⟨this.1, ?_⟩
    rw [this.2]
    simp only [List.length_append, List.length_singleton]
    omega

theorem real_gfx_iter_at_zero (T : ℝ) (hT : 0 < T) (N : Nat) :
    ∀ s : IterState ℝ, s.r = { r := 0, i := 0 } →
      (MANDEL.main_iter_at Real.sqrt T { r := 0, i := 0 } N s).div = s.div ∧
      (MANDEL.main_iter_at Real.sqrt T { r := 0, i := 0 } N s).terms.length
        = s.terms.length + N := by
  induction N with
  | zero => intro s _; exact ⟨rfl, rfl⟩
  | succ N ih =>
    intro s hs
    rw [MANDEL.main_iter_at]
    have hn : ¬ MANDEL.cplx_modulus Real.sqrt
        (MANDEL.func1 s.r { r := 0, i := 0 }) ≥ T := by
      rw [hs, gfx_func1_zero, real_gfx_modulus_zero]
      exact not_le.mpr hT
    simp only [hn, if_false]
    have := ih _ (show ({ r := MANDEL.func1 s.r { r := 0, i := 0 }, div := s.div,
                          iter := s.iter + 1,
                          terms := s.terms ++ [MANDEL.func1 s.r { r := 0, i := 0 }] }
                        : IterState ℝ).r = { r := 0, i := 0 } by
      show MANDEL.func1 s.r { r := 0, i := 0 } = { r := 0, i := 0 }
      rw [hs, gfx_func1_zero])
    refine ⟨this.1, ?_⟩
    rw [this.2]
    simp only [List.length_append, List.length_singleton]
    omega

theorem text_sample_50_20 : (mandelbrot.sample 50 20 : cplx K) = { r := 0, i := 0 } := by
  simp only [mandelbrot.sample, cplx.mk.injEq]
  constructor <;> norm_num

theorem gfx_func1_eq_text (z c : cplx K) : MANDEL.func1 z c = mandelbrot.func1 z c := rfl

theorem gfx_modulus_eq_text (sqrt : K → K) (z : cplx K) :
    MANDEL.cplx_modulus sqrt z = mandelbrot.modulus_complex sqrt z := rfl

theorem gfx_orbit_eq_text (c : cplx K) (n : Nat) : MANDEL.orbit c n = mandelbrot.orbit c n := by
  induction n with
  | zero => rfl
  | succ n ih => rw [MANDEL.orbit, mandelbrot.orbit, ih, gfx_func1_eq_text]

theorem text_orbit_two :
    mandelbrot.orbit ({ r := 2, i := 0 } : cplx ℝ) 1 = { r := 2, i := 0 } ∧
    mandelbrot.orbit ({ r := 2, i := 0 } : cplx ℝ) 2 = { r := 6, i := 0 } ∧
    mandelbrot.orbit ({ r := 2, i := 0 } : cplx ℝ) 3 = { r := 38, i := 0 } ∧
    mandelbrot.orbit ({ r := 2, i := 0 } : cplx ℝ) 4 = { r := 1446, i := 0 } := by
  have h1 : mandelbrot.orbit ({ r := 2, i := 0 } : cplx ℝ) 1 = { r := 2, i := 0 } := by
    simp only [mandelbrot.orbit, mandelbrot.func1, cplx.mk.injEq]
    constructor <;> norm_num
  have h2 : mandelbrot.orbit ({ r := 2, i := 0 } : cplx ℝ) 2 = { r := 6, i := 0 } := by
    rw [mandelbrot.orbit, h1]
    simp only [mandelbrot.func1, cplx.mk.injEq]
    constructor <;> norm_num
  have h3 : mandelbrot.orbit ({ r := 2, i := 0 } : cplx ℝ) 3 = { r := 38, i := 0 } := by
    rw [mandelbrot.orbit, h2]
    simp only [mandelbrot.func1, cplx.mk.injEq]
    constructor <;> norm_num
  have h4 : mandelbrot.orbit ({ r := 2, i := 0 } : cplx ℝ) 4 = { r := 1446, i := 0 } := by
    rw [mandelbrot.orbit, h3]
    simp only [mandelbrot.func1, cplx.mk.injEq]
    constructor <;> norm_num
  exact ⟨h1, h2, h3, h4⟩

theorem real_modulus_on_axis (x : ℝ) (hx : 0 ≤ x) :
    mandelbrot.modulus_complex Real.sqrt { r := x, i := 0 } = x := by
  unfold mandelbrot.modulus_complex
  rw [show x * x + (0 : ℝ) * 0 = x ^ 2 by ring]
  exact Real.sqrt_sq hx

theorem text_two_first_escape :
    mandelbrot.modulus_complex Real.sqrt
      (mandelbrot.orbit ({ r := 2, i := 0 } : cplx ℝ) 4) > 100 ∧
    ∀ m, 1 ≤ m → m < 4 →
      ¬ mandelbrot.modulus_complex Real.sqrt
        (mandelbrot.orbit ({ r := 2, i := 0 } : cplx ℝ) m) ≥ 100 := by
  obtain ⟨h1, h2, h3, h4⟩ := text_orbit_two
  constructor
  · rw [h4, real_modulus_on_axis _ (by norm_num)]; norm_num
  · intro m hm1 hm4
    interval_cases m
    · rw [h1, real_modulus_on_axis _ (by norm_num)]; norm_num
    · rw [h2, real_modulus_on_axis _ (by norm_num)]; norm_num
    · rw [h3, real_modulus_on_axis _ (by norm_num)]; norm_num

theorem text_orbit_one (c : cplx K) : mandelbrot.orbit c 1 = c := by
  simp [mandelbrot.orbit, mandelbrot.func1]

theorem text_symbol_blank_iff (d : Int) : mandelbrot.main_symbol d = ' ' ↔ d = 0 := by
  unfold mandelbrot.main_symbol
  constructor
  · intro h
    by_contra hd
    simp only [hd, if_false] at h
    split_ifs at h <;> exact absurd h (by decide)
  · intro h
    simp [h]

theorem text_pixel_blank_iff (sqrt : K → K) (c : cplx K)
    (h1 : ¬ mandelbrot.modulus_complex sqrt (mandelbrot.orbit c 1) > 100) :
    mandelbrot.main_pixel sqrt c = ' ' ↔
      ∀ n, 1 ≤ n → n ≤ 100 →
        ¬ mandelbrot.modulus_complex sqrt (mandelbrot.orbit c n) > 100 := by
  constructor
  · intro hpix
    by_contra hex
    push_neg at hex
    have hex' : ∃ n, 1 ≤ n ∧ n ≤ 100 ∧
        mandelbrot.modulus_complex sqrt (mandelbrot.orbit c n) > 100 := by
      obtain ⟨n, a, b, c'⟩ := hex
      exact ⟨n, a, b, c'⟩
    classical
    have hspec := Nat.find_spec hex'
    have hmin : ∀ m, 1 ≤ m → m < Nat.find hex' →
        ¬ mandelbrot.modulus_complex sqrt (mandelbrot.orbit c m) > 100 :=
      fun m hm1 hm hgt => Nat.find_min hex' hm ⟨hm1, by omega, hgt⟩
    have hne : Nat.find hex' ≠ 1 := by
      intro h
      rw [h] at hspec
      exact h1 hspec.2.2
    rw [text_pixel_first_escape sqrt c (Nat.find hex') hspec.1 hspec.2.1 hspec.2.2 hmin,
      text_symbol_blank_iff] at hpix
    have := hspec.1
    omega
  · exact text_pixel_no_escape sqrt c

theorem text_terms_length_ge_two (sqrt : K → K) (c : cplx K)
    (h1 : ¬ mandelbrot.modulus_complex sqrt (mandelbrot.orbit c 1) > 100) :
    2 ≤ (mandelbrot.main_eval sqrt c).terms.length := by
  by_cases hex : ∃ n, 1 ≤ n ∧ n ≤ 100 ∧
      mandelbrot.modulus_complex sqrt (mandelbrot.orbit c n) > 100
  · classical
    have hspec := Nat.find_spec hex
    have hmin : ∀ m, 1 ≤ m → m < Nat.find hex →
        ¬ mandelbrot.modulus_complex sqrt (mandelbrot.orbit c m) > 100 :=
      fun m hm1 hm hgt => Nat.find_min hex hm ⟨hm1, by omega, hgt⟩
    have hne : Nat.find hex ≠ 1 := by
      intro h
      rw [h] at hspec
      exact h1 hspec.2.2
    rw [text_eval_escape sqrt c (Nat.find hex) hspec.1 hspec.2.1 hspec.2.2 hmin]
    simp only [List.length_map, List.length_range]
    have := hspec.1
    omega
  · rw [text_eval_no_escape sqrt c (fun n a b h => hex ⟨n, a, b, h⟩)]
    simp

theorem real_region_first_term (c : cplx ℝ) (hr : |c.r| ≤ 2) (hi : |c.i| ≤ 2) :
    mandelbrot.modulus_complex Real.sqrt c ≤ Real.sqrt 8 ∧ Real.sqrt 8 < 100 := by
  have h1 := abs_le.mp hr
  have h2 := abs_le.mp hi
  constructor
  · unfold mandelbrot.modulus_complex
    apply Real.sqrt_le_sqrt
    nlinarith [h1.1, h1.2, h2.1, h2.2]
  · rw [Real.sqrt_lt' (by norm_num)]
    norm_num

theorem square_plus_c_growth (x y a b : ℝ) (hs : 10000 ≤ x * x + y * y) (ha : |a| ≤ 2)
    (hb : |b| ≤ 2) :
    4 * (x * x + y * y)
      ≤ (x * x + y * y * (-1) + a) * (x * x + y * y * (-1) + a)
        + (x * y + y * x + b) * (x * y + y * x + b) := by
  have h1 := abs_le.mp ha
  have h2 := abs_le.mp hb
  have hd : -(x * x + y * y) ≤ x * x - y * y ∧ x * x - y * y ≤ x * x + y * y := by
    constructor <;> nlinarith [mul_self_nonneg x, mul_self_nonneg y]
  have hp : -(x * x + y * y) ≤ 2 * (x * y) ∧ 2 * (x * y) ≤ x * x + y * y := by
    constructor <;> nlinarith [mul_self_nonneg (x + y), mul_self_nonneg (x - y)]
  have key : (x * x + y * y * (-1) + a) * (x * x + y * y * (-1) + a)
      + (x * y + y * x + b) * (x * y + y * x + b)
      = (x * x + y * y) * (x * x + y * y) + 2 * a * (x * x - y * y) + 2 * b * (2 * (x * y))
        + a * a + b * b := by ring
  rw [key]
  have ea : -(2 * (x * x + y * y)) ≤ a * (x * x - y * y) := by
    rcases le_total 0 (x * x - y * y) with h | h
    · nlinarith [mul_le_mul_of_nonneg_right h1.1 h]
    · nlinarith [mul_le_mul_of_nonpos_right h1.2 h]
  have eb : -(2 * (x * x + y * y)) ≤ b * (2 * (x * y)) := by
    rcases le_total 0 (2 * (x * y)) with h | h
    · nlinarith [mul_le_mul_of_nonneg_right h2.1 h]
    · nlinarith [mul_le_mul_of_nonpos_right h2.2 h]
  nlinarith [mul_self_nonneg a, mul_self_nonneg b]

theorem real_modulus_doubles (z c : cplx ℝ) (hr : |c.r| ≤ 2) (hi : |c.i| ≤ 2)
    (hz : mandelbrot.modulus_complex Real.sqrt z ≥ 100) :
    mandelbrot.modulus_complex Real.sqrt (mandelbrot.func1 z c)
      ≥ 2 * mandelbrot.modulus_complex Real.sqrt z := by
  have hs : 10000 ≤ z.r * z.r + z.i * z.i := by
    have := (real_gfx_test z).1 (by rw [gfx_modulus_eq_text]; exact hz)
    exact this
  have hg := square_plus_c_growth z.r z.i c.r c.i hs hr hi
  unfold mandelbrot.modulus_complex
  simp only [mandelbrot.func1, ge_iff_le]
  apply Real.le_sqrt_of_sq_le
  rw [mul_pow, Real.sq_sqrt (by linarith)]
  norm_num
  linarith

theorem real_orbit_keeps_doubling (c : cplx ℝ) (hr : |c.r| ≤ 2) (hi : |c.i| ≤ 2) (n : Nat)
    (hn : mandelbrot.modulus_complex Real.sqrt (mandelbrot.orbit c n) ≥ 100) (k : Nat) :
    mandelbrot.modulus_complex Real.sqrt (mandelbrot.orbit c (n + k))
      ≥ 2 ^ k * mandelbrot.modulus_complex Real.sqrt (mandelbrot.orbit c n) := by
  induction k with
  | zero => simp
  | succ k ih =>
    have h100 : mandelbrot.modulus_complex Real.sqrt (mandelbrot.orbit c (n + k)) ≥ 100 := by
      have h2 : (1 : ℝ) ≤ 2 ^ k := one_le_pow₀ (by norm_num)
      nlinarith
    have := real_modulus_doubles (mandelbrot.orbit c (n + k)) c hr hi h100
    rw [show n + (k + 1) = (n + k) + 1 from rfl, mandelbrot.orbit, pow_succ]
    nlinarith

theorem real_two_no_tie (n : Nat) (h1 : 1 ≤ n) :
    mandelbrot.modulus_complex Real.sqrt
      (mandelbrot.orbit ({ r := 2, i := 0 } : cplx ℝ) n) ≠ 100 := by
  obtain ⟨o1, o2, o3, o4⟩ := text_orbit_two
  rcases Nat.lt_or_ge n 4 with h | h
  · interval_cases n
    · rw [o1, real_modulus_on_axis _ (by norm_num)]; norm_num
    · rw [o2, real_modulus_on_axis _ (by norm_num)]; norm_num
    · rw [o3, real_modulus_on_axis _ (by norm_num)]; norm_num
  · obtain ⟨k, rfl⟩ : ∃ k, n = 4 + k := ⟨n - 4, by omega⟩
    have h4 : mandelbrot.modulus_complex Real.sqrt
        (mandelbrot.orbit ({ r := 2, i := 0 } : cplx ℝ) 4) = 1446 := by
      rw [o4, real_modulus_on_axis _ (by norm_num)]
    have hk := real_orbit_keeps_doubling ({ r := 2, i := 0 } : cplx ℝ)
      (by norm_num [abs_le]) (by norm_num [abs_le]) 4 (by rw [h4]; norm_num) k
    rw [h4] at hk
    have h2 : (1 : ℝ) ≤ 2 ^ k := one_le_pow₀ (by norm_num)
    intro heq
    rw [heq] at hk
    nlinarith

end LaterHelpers

/-! The claims of the specification, C11 to C19. -/

section LaterClaims

variable {K : Type} [LinearOrderedField K]

/-- C11.  The recurrence is symmetric under conjugation (`conj` negates the imaginary part):
`func1(conj z, conj c) = conj(func1(z, c))` and `modulus(conj z) = modulus(z)`, in both
source files; hence for every `c` the iteration loop of either variant ends for
`(c.r, -c.i)` in the conjugate of the state it ends in for `(c.r, c.i)`: the same `div`
(verdict), the same `iter` (escape iteration), the same number of `func1` applications,
and therefore the same symbol (text) and the same `graphics_plot_pixel` calls (graphics). -/
theorem conjugation_symmetry (sqrt : K → K) (z c : cplx K) (px py : Int)
    (o : MANDEL.Screen K) :
    (mandelbrot.func1 z.conj c.conj = (mandelbrot.func1 z c).conj ∧
      MANDEL.func1 z.conj c.conj = (MANDEL.func1 z c).conj) ∧
    (mandelbrot.modulus_complex sqrt z.conj = mandelbrot.modulus_complex sqrt z ∧
      MANDEL.cplx_modulus sqrt z.conj = MANDEL.cplx_modulus sqrt z) ∧
    (mandelbrot.main_eval sqrt { r := c.r, i := -c.i } = (mandelbrot.main_eval sqrt c).conj ∧
      (mandelbrot.main_eval sqrt { r := c.r, i := -c.i }).div = (mandelbrot.main_eval sqrt c).div ∧
      (mandelbrot.main_eval sqrt { r := c.r, i := -c.i }).iter
        = (mandelbrot.main_eval sqrt c).iter ∧
      (mandelbrot.main_eval sqrt { r := c.r, i := -c.i }).terms.length
        = (mandelbrot.main_eval sqrt c).terms.length ∧
      mandelbrot.main_pixel sqrt { r := c.r, i := -c.i } = mandelbrot.main_pixel sqrt c) ∧
    (MANDEL.main_eval sqrt { r := c.r, i := -c.i } = (MANDEL.main_eval sqrt c).conj ∧
      (MANDEL.main_eval sqrt { r := c.r, i := -c.i }).div = (MANDEL.main_eval sqrt c).div ∧
      (MANDEL.main_eval sqrt { r := c.r, i := -c.i }).iter = (MANDEL.main_eval sqrt c).iter ∧
      (MANDEL.main_eval sqrt { r := c.r, i := -c.i }).terms.length
        = (MANDEL.main_eval sqrt c).terms.length ∧
      (MANDEL.main_pixel sqrt { r := c.r, i := -c.i } px py o).plots
        = (MANDEL.main_pixel sqrt c px py o).plots) := by
  have ht : mandelbrot.main_eval sqrt { r := c.r, i := -c.i }
      = (mandelbrot.main_eval sqrt c).conj := text_eval_conj sqrt c
  have hg : MANDEL.main_eval sqrt { r := c.r, i := -c.i }
      = (MANDEL.main_eval sqrt c).conj := gfx_eval_conj sqrt c
  refine ⟨⟨text_func1_conj z c, gfx_func1_conj z c⟩,
    ⟨text_modulus_conj_eq sqrt z, gfx_modulus_conj_eq sqrt z⟩,
    ⟨ht, ?_, ?_, ?_, ?_⟩, ⟨hg, ?_, ?_, ?_, ?_⟩⟩
  · rw [ht]; rfl
  · rw [ht]; rfl
  · rw [ht]; simp [IterState.conj]
  · unfold mandelbrot.main_pixel
    rw [ht]; rfl
  · rw [hg]; rfl
  · rw [hg]; rfl
  · rw [hg]; simp [IterState.conj]
  · unfold MANDEL.main_pixel
    simp only [hg]
    rfl

/-- C12.  The origin is always bounded.  For `c = (0,0)` every orbit term is `(0,0)` with
modulus `0` (real square root), in both variants.  For every iteration cap `N` and every
threshold `T > 0` the iteration loop of either variant, started as `main` starts it, ends
with `div = 0` after `N` applications of `func1` (`main_iter_at` is the loop with the
threshold as a parameter; at `T = 100`, `N = 100` it is the loop of the program).  With
the program's constants the text renderer prints the blank for `c = (0,0)`, which is the
pixel in column 50 of row 20, and the graphics renderer makes no
`graphics_plot_pixel` call for a pixel that samples `c = (0,0)`. -/
theorem origin_is_bounded :
    (∀ n : Nat,
      mandelbrot.orbit ({ r := 0, i := 0 } : cplx ℝ) n = { r := 0, i := 0 } ∧
      mandelbrot.modulus_complex Real.sqrt
        (mandelbrot.orbit ({ r := 0, i := 0 } : cplx ℝ) n) = 0 ∧
      MANDEL.orbit ({ r := 0, i := 0 } : cplx ℝ) n = { r := 0, i := 0 } ∧
      MANDEL.cplx_modulus Real.sqrt
        (MANDEL.orbit ({ r := 0, i := 0 } : cplx ℝ) n) = 0) ∧
    (∀ (N : Nat) (T : ℝ), 0 < T →
      (mandelbrot.main_iter_at Real.sqrt T { r := 0, i := 0 } N
        { r := { r := 0, i := 0 }, div := 0, iter := 0, terms := [] }).div = 0 ∧
      (mandelbrot.main_iter_at Real.sqrt T { r := 0, i := 0 } N
        { r := { r := 0, i := 0 }, div := 0, iter := 0, terms := [] }).terms.length = N ∧
      (MANDEL.main_iter_at Real.sqrt T { r := 0, i := 0 } N
        { r := { r := 0, i := 0 }, div := 0, iter := 0, terms := [] }).div = 0 ∧
      (MANDEL.main_iter_at Real.sqrt T { r := 0, i := 0 } N
        { r := { r := 0, i := 0 }, div := 0, iter := 0, terms := [] }).terms.length = N) ∧
    (∀ (c : cplx ℝ) (s : IterState ℝ),
      mandelbrot.main_iter Real.sqrt c 100 s = mandelbrot.main_iter_at Real.sqrt 100 c 100 s ∧
      MANDEL.main_iter Real.sqrt c MANDEL.MAXITERATIONS s
        = MANDEL.main_iter_at Real.sqrt 100 c 100 s) ∧
    (mandelbrot.main_eval Real.sqrt { r := 0, i := 0 }).div = 0 ∧
    mandelbrot.main_pixel Real.sqrt { r := 0, i := 0 } = ' ' ∧
    (∃ o, mandelbrot.main Real.sqrt 101 = some o ∧
      (mandelbrot.sample 50 20 : cplx ℝ) = { r := 0, i := 0 } ∧
      mandelbrot.symbolAt o.out 50 20 = some ' ') ∧
    (MANDEL.main_eval Real.sqrt { r := 0, i := 0 }).div = 0 ∧
    (∀ (px py : Int) (o : MANDEL.Screen ℝ),
      (MANDEL.main_pixel Real.sqrt { r := 0, i := 0 } px py o).plots = o.plots) := by
  have hpix : mandelbrot.main_pixel Real.sqrt ({ r := 0, i := 0 } : cplx ℝ) = ' ' :=
    text_pixel_no_escape Real.sqrt _ (fun n _ _ => real_text_zero_bounded n)
  have hg0 : (MANDEL.main_eval Real.sqrt ({ r := 0, i := 0 } : cplx ℝ)).div = 0 := by
    rw [gfx_eval_no_escape Real.sqrt _ (fun n _ _ => real_gfx_zero_bounded n)]
  refine ⟨?_, ?_, ?_, ?_, hpix, ?_, hg0, ?_⟩
  · intro n
    refine ⟨text_orbit_zero n, ?_, gfx_orbit_zero n, ?_⟩
    · rw [text_orbit_zero, real_text_modulus_zero]
    · rw [gfx_orbit_zero, real_gfx_modulus_zero]
  · intro N T hT
    have h1 := real_text_iter_at_zero T hT N
      { r := { r := 0, i := 0 }, div := 0, iter := 0, terms := [] } rfl
    have h2 := real_gfx_iter_at_zero T hT N
      { r := { r := 0, i := 0 }, div := 0, iter := 0, terms := [] } rfl
    refine ⟨h1.1, ?_, h2.1, ?_⟩
    · rw [h1.2]; simp
    · rw [h2.2]; simp
  · intro c s
    refine ⟨(text_iter_at_program Real.sqrt c 100 s).symm, ?_⟩
    have := gfx_iter_at_program Real.sqrt c 100 s
    rw [show (MANDEL.CONVLIMIT : ℝ) = 100 from rfl] at this
    exact this.symm
  · rw [text_eval_no_escape Real.sqrt _ (fun n _ _ => real_text_zero_bounded n)]
  · refine ⟨_, text_eq Real.sqrt 101 (by decide), text_sample_50_20, ?_⟩
    simp only
    rw [text_symbolAt Real.sqrt 50 20 (by decide) (by decide), text_sample_50_20, hpix]
  · intro px py o
    simp [MANDEL.main_pixel, hg0]

/-- C13.  For `c = (2,0)` the orbit is `2, 6, 38, 1446`; the first term whose modulus
reaches the threshold `100` is the 4th (`4 <= 5`), of modulus `1446`.  The graphics loop
ends with `div = 1` and `iter + 1 = 4`, so the pixel is plotted with colour `5`; the text
loop records `div = 3` and the renderer prints `.`, which is not the blank. -/
theorem two_escapes_at_fourth_term :
    (MANDEL.orbit ({ r := 2, i := 0 } : cplx ℝ) 1 = { r := 2, i := 0 } ∧
      MANDEL.orbit ({ r := 2, i := 0 } : cplx ℝ) 2 = { r := 6, i := 0 } ∧
      MANDEL.orbit ({ r := 2, i := 0 } : cplx ℝ) 3 = { r := 38, i := 0 } ∧
      MANDEL.orbit ({ r := 2, i := 0 } : cplx ℝ) 4 = { r := 1446, i := 0 }) ∧
    (MANDEL.cplx_modulus Real.sqrt (MANDEL.orbit ({ r := 2, i := 0 } : cplx ℝ) 4) = 1446 ∧
      MANDEL.cplx_modulus Real.sqrt (MANDEL.orbit ({ r := 2, i := 0 } : cplx ℝ) 4) ≥ 100 ∧
      (∀ m, 1 ≤ m → m < 4 →
        ¬ MANDEL.cplx_modulus Real.sqrt
          (MANDEL.orbit ({ r := 2, i := 0 } : cplx ℝ) m) ≥ 100) ∧
      4 ≤ 5) ∧
    ((MANDEL.main_eval Real.sqrt { r := 2, i := 0 }).div = 1 ∧
      (MANDEL.main_eval Real.sqrt { r := 2, i := 0 }).iter + 1 = 4 ∧
      ∀ (px py : Int) (o : MANDEL.Screen ℝ),
        (MANDEL.main_pixel Real.sqrt { r := 2, i := 0 } px py o).plots
          = o.plots ++ [(px, py, 5)]) ∧
    ((mandelbrot.main_eval Real.sqrt { r := 2, i := 0 }).div = 3 ∧
      mandelbrot.main_pixel Real.sqrt { r := 2, i := 0 } = '.' ∧
      mandelbrot.main_pixel Real.sqrt { r := 2, i := 0 } ≠ ' ') := by
  obtain ⟨h1, h2, h3, h4⟩ := text_orbit_two
  obtain ⟨he, hmin⟩ := text_two_first_escape
  have hge : MANDEL.cplx_modulus Real.sqrt
      (MANDEL.orbit ({ r := 2, i := 0 } : cplx ℝ) 4) ≥ 100 := by
    rw [gfx_orbit_eq_text, gfx_modulus_eq_text]; exact he.le
  have hgmin : ∀ m, 1 ≤ m → m < 4 →
      ¬ MANDEL.cplx_modulus Real.sqrt
        (MANDEL.orbit ({ r := 2, i := 0 } : cplx ℝ) m) ≥ 100 := by
    intro m hm1 hm4
    rw [gfx_orbit_eq_text, gfx_modulus_eq_text]; exact hmin m hm1 hm4
  have hg := gfx_eval_escape Real.sqrt ({ r := 2, i := 0 } : cplx ℝ) 4 (by norm_num)
    (by norm_num) hge hgmin
  have ht := text_eval_escape Real.sqrt ({ r := 2, i := 0 } : cplx ℝ) 4 (by norm_num)
    (by norm_num) he (fun m hm1 hm4 hgt => hmin m hm1 hm4 (le_of_lt hgt))
  have hgd : (MANDEL.main_eval Real.sqrt ({ r := 2, i := 0 } : cplx ℝ)).div = 1 := by
    rw [hg]
  have hpix : mandelbrot.main_pixel Real.sqrt ({ r := 2, i := 0 } : cplx ℝ) = '.' := by
    unfold mandelbrot.main_pixel
    rw [ht]; rfl
  refine ⟨?_, ⟨?_, hge, hgmin, by norm_num⟩, ⟨hgd, ?_, ?_⟩, ⟨?_, hpix, ?_⟩⟩
  · simp only [gfx_orbit_eq_text]
    exact ⟨h1, h2, h3, h4⟩
  · rw [gfx_orbit_eq_text, gfx_modulus_eq_text, h4, real_modulus_on_axis _ (by norm_num)]
  · rw [hg]; rfl
  · intro px py o
    simp [MANDEL.main_pixel, MANDEL.graphics_plot_pixel, hgd]
  · rw [ht]; rfl
  · rw [hpix]; decide

/-- C14.  Banding monotonicity of the `if`/`else` chain of the text renderer: with the
symbols ordered `.` < `:` < `*` < `@` (`bandRank`), for recorded indices
`1 <= n1 <= n2 <= 100` the symbol chosen for `n2` is never an earlier band than the symbol
chosen for `n1`, and the symbol chosen for `n1` is one of the four band symbols. -/
theorem banding_is_monotone (n1 n2 : Int) (h1 : 1 ≤ n1) (h12 : n1 ≤ n2) (h2 : n2 ≤ 100) :
    mandelbrot.bandRank (mandelbrot.main_symbol n1)
      ≤ mandelbrot.bandRank (mandelbrot.main_symbol n2) ∧
    1 ≤ mandelbrot.bandRank (mandelbrot.main_symbol n1) := by
  unfold mandelbrot.main_symbol
  split_ifs <;> first | omega | (constructor <;> decide)

/-- Witness for C14: the indices `25` and `26`, on either side of a band boundary. -/
theorem banding_is_monotone_25_26 :
    mandelbrot.bandRank (mandelbrot.main_symbol 25)
      ≤ mandelbrot.bandRank (mandelbrot.main_symbol 26) ∧
    1 ≤ mandelbrot.bandRank (mandelbrot.main_symbol 25) :=
  banding_is_monotone 25 26 (by decide) (by decide) (by decide)

/-- C15.  Per-pixel determinism and independence, on the loop bodies with the variables of
`main` threaded from pass to pass.  Let the body run for the coordinates `(x, y)` after
any passes `before` over any other coordinates, started from any contents `t` (text) or
`g` (graphics) of the variables on which `c1.r=c1.i=0` was executed.  Text: the body starts
the loop from `r = (0,0)`, `div = 0` (its results `r` and `div` are those of
`mandelbrot.main_eval`), and the character written is `mandelbrot.main_pixel` of
`(x, y)`; hence it is the same character after any other history `before'`, `t'`.
Graphics: the results `r` and `div` are those of `MANDEL.main_eval`, one call
`graphics_plot_pixel(pixel_x, pixel_y, 5)` is added exactly when that `div` is not `0`,
and a call is added in one run exactly when it is added in any other run for the same
`(x, y)`. -/
theorem pixel_output_independent_of_history (sqrt : K → K) (x y : K)
    (t t' : mandelbrot.Locals K) (before before' : List (K × K)) (out out' : List Char)
    (g g' : MANDEL.Locals K) (gbefore gbefore' : List (K × K × Int × Int))
    (plots plots' q q' : List (Int × Int × Int)) (px py px' py' : Int) :
    ((mandelbrot.main_body sqrt x y
        (mandelbrot.run_body sqrt before (mandelbrot.main_init t) out).1).1.r
        = (mandelbrot.main_eval sqrt { r := x, i := y }).r ∧
      (mandelbrot.main_body sqrt x y
        (mandelbrot.run_body sqrt before (mandelbrot.main_init t) out).1).1.div
        = (mandelbrot.main_eval sqrt { r := x, i := y }).div ∧
      (mandelbrot.main_body sqrt x y
        (mandelbrot.run_body sqrt before (mandelbrot.main_init t) out).1).2
        = mandelbrot.main_pixel sqrt { r := x, i := y }) ∧
    (mandelbrot.main_body sqrt x y
        (mandelbrot.run_body sqrt before (mandelbrot.main_init t) out).1).2
      = (mandelbrot.main_body sqrt x y
        (mandelbrot.run_body sqrt before' (mandelbrot.main_init t') out').1).2 ∧
    ((MANDEL.main_body sqrt x y px py
        (MANDEL.run_body sqrt gbefore (MANDEL.main_init g) plots).1 q).1.r
        = (MANDEL.main_eval sqrt { r := x, i := y }).r ∧
      (MANDEL.main_body sqrt x y px py
        (MANDEL.run_body sqrt gbefore (MANDEL.main_init g) plots).1 q).1.div
        = (MANDEL.main_eval sqrt { r := x, i := y }).div ∧
      (MANDEL.main_body sqrt x y px py
        (MANDEL.run_body sqrt gbefore (MANDEL.main_init g) plots).1 q).2
        = if (MANDEL.main_eval sqrt { r := x, i := y }).div ≠ 0 then q ++ [(px, py, 5)]
          else q) ∧
    ((MANDEL.main_body sqrt x y px py
        (MANDEL.run_body sqrt gbefore (MANDEL.main_init g) plots).1 q).2 = q ++ [(px, py, 5)] ↔
      (MANDEL.main_body sqrt x y px' py'
        (MANDEL.run_body sqrt gbefore' (MANDEL.main_init g') plots').1 q').2
        = q' ++ [(px', py', 5)]) ∧
    ((MANDEL.main_body sqrt x y px py
        (MANDEL.run_body sqrt gbefore (MANDEL.main_init g) plots).1 q).2 = q ↔
      (MANDEL.main_body sqrt x y px' py'
        (MANDEL.run_body sqrt gbefore' (MANDEL.main_init g') plots').1 q').2 = q') := by
  have ht : ∀ (t : mandelbrot.Locals K) (before : List (K × K)) (out : List Char),
      (mandelbrot.run_body sqrt before (mandelbrot.main_init t) out).1.c1
        = { r := 0, i := 0 } := fun t before out => by
    rw [text_run_body_c1]; rfl
  have hg : ∀ (g : MANDEL.Locals K) (gbefore : List (K × K × Int × Int))
      (plots : List (Int × Int × Int)),
      (MANDEL.run_body sqrt gbefore (MANDEL.main_init g) plots).1.c1
        = { r := 0, i := 0 } := fun g gbefore plots => by
    rw [gfx_run_body_c1]; rfl
  have e1 := text_body_eq sqrt x y _ (ht t before out)
  have e2 := text_body_eq sqrt x y _ (ht t' before' out')
  have f1 := gfx_body_eq sqrt x y px py _ q (hg g gbefore plots)
  have f2 := gfx_body_eq sqrt x y px' py' _ q' (hg g' gbefore' plots')
  refine ⟨⟨e1.2.1, e1.2.2.1, e1.2.2.2⟩, e1.2.2.2.trans e2.2.2.2.symm, f1, ?_, ?_⟩
  · rw [f1.2.2, f2.2.2]
    by_cases h : (MANDEL.main_eval sqrt { r := x, i := y }).div ≠ 0
    · rw [if_pos h, if_pos h]
      exact ⟨fun _ => rfl, fun _ => rfl⟩
    · rw [if_neg h, if_neg h]
      simp only [List.self_eq_append_right, reduceCtorEq]
  · rw [f1.2.2, f2.2.2]
    by_cases h : (MANDEL.main_eval sqrt { r := x, i := y }).div ≠ 0
    · rw [if_pos h, if_pos h]
      simp only [List.append_right_eq_self, reduceCtorEq]
    · rw [if_neg h, if_neg h]
      exact ⟨fun _ => rfl, fun _ => rfl⟩

/-- C16.  In the text variant `div = 0` stands both for 'never escaped' and for 'escaped at
loop index `iter = 0`' (last conjunct: a first term above `100` leaves `div = 0` after one
application of `func1`).  Inside the sampled region, `|c.r| <= 2` and `|c.i| <= 2`, the
second case cannot happen: the first orbit term is `c`, its modulus is at most
`sqrt 8 < 100`, so the loop does not stop at `iter = 0` (it applies `func1` at least
twice); hence the renderer prints the blank (equivalently `div = 0`) if and only if none
of the first 100 orbit terms has modulus `> 100`. -/
theorem text_blank_means_bounded_in_region (c : cplx ℝ) (hr : |c.r| ≤ 2) (hi : |c.i| ≤ 2) :
    mandelbrot.orbit c 1 = c ∧
    mandelbrot.modulus_complex Real.sqrt (mandelbrot.orbit c 1) ≤ Real.sqrt 8 ∧
    Real.sqrt 8 < 100 ∧
    ¬ mandelbrot.modulus_complex Real.sqrt (mandelbrot.orbit c 1) > 100 ∧
    2 ≤ (mandelbrot.main_eval Real.sqrt c).terms.length ∧
    (mandelbrot.main_pixel Real.sqrt c = ' ' ↔
      ∀ n, 1 ≤ n → n ≤ 100 →
        ¬ mandelbrot.modulus_complex Real.sqrt (mandelbrot.orbit c n) > 100) ∧
    ((mandelbrot.main_eval Real.sqrt c).div = 0 ↔
      ∀ n, 1 ≤ n → n ≤ 100 →
        ¬ mandelbrot.modulus_complex Real.sqrt (mandelbrot.orbit c n) > 100) ∧
    (∀ c' : cplx ℝ, mandelbrot.modulus_complex Real.sqrt (mandelbrot.orbit c' 1) > 100 →
      (mandelbrot.main_eval Real.sqrt c').div = 0 ∧
      (mandelbrot.main_eval Real.sqrt c').terms.length = 1) := by
  obtain ⟨hle, hlt⟩ := real_region_first_term c hr hi
  have h1 : ¬ mandelbrot.modulus_complex Real.sqrt (mandelbrot.orbit c 1) > 100 := by
    rw [text_orbit_one]
    exact not_lt.mpr (hle.trans hlt.le)
  have hiff := text_pixel_blank_iff Real.sqrt c h1
  refine ⟨text_orbit_one c, ?_, hlt, h1, text_terms_length_ge_two Real.sqrt c h1, hiff, ?_, ?_⟩
  · rw [text_orbit_one]; exact hle
  · rw [← hiff, mandelbrot.main_pixel, text_symbol_blank_iff]
  · intro c' hc'
    rw [text_eval_escape Real.sqrt c' 1 le_rfl (by norm_num) hc' (fun m hm1 hm => by omega)]
    exact ⟨rfl, rfl⟩

/-- Witness for C16: the corner of the region on the real axis, `c = (-2, 0)`. -/
theorem text_blank_means_bounded_at_minus_two :
    mandelbrot.orbit ({ r := -2, i := 0 } : cplx ℝ) 1 = { r := -2, i := 0 } ∧
    mandelbrot.modulus_complex Real.sqrt
      (mandelbrot.orbit ({ r := -2, i := 0 } : cplx ℝ) 1) ≤ Real.sqrt 8 ∧
    Real.sqrt 8 < 100 ∧
    ¬ mandelbrot.modulus_complex Real.sqrt
      (mandelbrot.orbit ({ r := -2, i := 0 } : cplx ℝ) 1) > 100 ∧
    2 ≤ (mandelbrot.main_eval Real.sqrt ({ r := -2, i := 0 } : cplx ℝ)).terms.length ∧
    (mandelbrot.main_pixel Real.sqrt ({ r := -2, i := 0 } : cplx ℝ) = ' ' ↔
      ∀ n, 1 ≤ n → n ≤ 100 →
        ¬ mandelbrot.modulus_complex Real.sqrt
          (mandelbrot.orbit ({ r := -2, i := 0 } : cplx ℝ) n) > 100) ∧
    ((mandelbrot.main_eval Real.sqrt ({ r := -2, i := 0 } : cplx ℝ)).div = 0 ↔
      ∀ n, 1 ≤ n → n ≤ 100 →
        ¬ mandelbrot.modulus_complex Real.sqrt
          (mandelbrot.orbit ({ r := -2, i := 0 } : cplx ℝ) n) > 100) ∧
    (∀ c' : cplx ℝ, mandelbrot.modulus_complex Real.sqrt (mandelbrot.orbit c' 1) > 100 →
      (mandelbrot.main_eval Real.sqrt c').div = 0 ∧
      (mandelbrot.main_eval Real.sqrt c').terms.length = 1) :=
  text_blank_means_bounded_in_region { r := -2, i := 0 }
    (by norm_num [abs_le]) (by norm_num [abs_le])

/-- C19.  The evaluators of the two variants agree except on the exact-threshold tie.  For
every `c` with `modulus(c) < 100` such that none of the first 100 orbit terms has modulus
exactly `100`: the graphics loop ends with `div = 1` if and only if the text renderer
prints a non-blank symbol; when it does, the `div` the text loop recorded equals the
graphics loop's `iter` at the break, the zero-based index `n - 1` of the first term with
modulus `>= 100`; and in every case the two loops end with the same `iter`, the same `r`
and the same computed terms. -/
theorem variants_agree_without_tie (sqrt : K → K) (c : cplx K)
    (hc : mandelbrot.modulus_complex sqrt c < 100)
    (htie : ∀ n, 1 ≤ n → n ≤ 100 →
      mandelbrot.modulus_complex sqrt (mandelbrot.orbit c n) ≠ 100) :
    ((MANDEL.main_eval sqrt c).div = 1 ↔ mandelbrot.main_pixel sqrt c ≠ ' ') ∧
    ((MANDEL.main_eval sqrt c).div = 1 →
      (mandelbrot.main_eval sqrt c).div = (MANDEL.main_eval sqrt c).iter ∧
      ∃ n, 1 ≤ n ∧ n ≤ 100 ∧
        MANDEL.cplx_modulus sqrt (MANDEL.orbit c n) ≥ 100 ∧
        (∀ m, 1 ≤ m → m < n → ¬ MANDEL.cplx_modulus sqrt (MANDEL.orbit c m) ≥ 100) ∧
        (MANDEL.main_eval sqrt c).iter = ((n - 1 : Nat) : Int)) ∧
    ((MANDEL.main_eval sqrt c).iter = (mandelbrot.main_eval sqrt c).iter ∧
      (MANDEL.main_eval sqrt c).r = (mandelbrot.main_eval sqrt c).r ∧
      (MANDEL.main_eval sqrt c).terms = (mandelbrot.main_eval sqrt c).terms) := by
  have hiff : ∀ n, 1 ≤ n → n ≤ 100 →
      (MANDEL.cplx_modulus sqrt (MANDEL.orbit c n) ≥ 100 ↔
        mandelbrot.modulus_complex sqrt (mandelbrot.orbit c n) > 100) := by
    intro n h1 h2
    rw [gfx_orbit_eq_text, gfx_modulus_eq_text]
    constructor
    · intro h
      exact lt_of_le_of_ne h (Ne.symm (htie n h1 h2))
    · intro h
      exact le_of_lt h
  have hterms : ∀ n : Nat, (List.range n).map (fun i => MANDEL.orbit c (i + 1))
      = (List.range n).map (fun i => mandelbrot.orbit c (i + 1)) := by
    intro n
    exact List.map_congr_left (fun i _ => gfx_orbit_eq_text c (i + 1))
  by_cases hex : ∃ n, 1 ≤ n ∧ n ≤ 100 ∧
      mandelbrot.modulus_complex sqrt (mandelbrot.orbit c n) > 100
  · classical
    have hspec := Nat.find_spec hex
    have hmin : ∀ m, 1 ≤ m → m < Nat.find hex →
        ¬ mandelbrot.modulus_complex sqrt (mandelbrot.orbit c m) > 100 :=
      fun m hm1 hm hgt => Nat.find_min hex hm ⟨hm1, by omega, hgt⟩
    have hne : Nat.find hex ≠ 1 := by
      intro h
      rw [h, text_orbit_one] at hspec
      exact absurd hspec.2.2 (not_lt.mpr hc.le)
    have hgmin : ∀ m, 1 ≤ m → m < Nat.find hex →
        ¬ MANDEL.cplx_modulus sqrt (MANDEL.orbit c m) ≥ 100 :=
      fun m hm1 hm hge => hmin m hm1 hm ((hiff m hm1 (by omega)).1 hge)
    have hge := (hiff _ hspec.1 hspec.2.1).2 hspec.2.2
    have ht := text_eval_escape sqrt c (Nat.find hex) hspec.1 hspec.2.1 hspec.2.2 hmin
    have hg := gfx_eval_escape sqrt c (Nat.find hex) hspec.1 hspec.2.1 hge hgmin
    have hpix : mandelbrot.main_pixel sqrt c ≠ ' ' := by
      rw [mandelbrot.main_pixel, ht]
      intro h
      rw [text_symbol_blank_iff] at h
      have := hspec.1
      simp only at h
      omega
    refine ⟨⟨fun _ => hpix, fun _ => by rw [hg]⟩, fun _ => ⟨?_, Nat.find hex, hspec.1,
      hspec.2.1, hge, hgmin, ?_⟩, ?_, ?_, ?_⟩
    · rw [ht, hg]
    · rw [hg]
    · rw [ht, hg]
    · rw [ht, hg]; exact gfx_orbit_eq_text c _
    · rw [ht, hg]; exact hterms _
  · have hno : ∀ n, 1 ≤ n → n ≤ 100 →
        ¬ mandelbrot.modulus_complex sqrt (mandelbrot.orbit c n) > 100 :=
      fun n a b h => hex ⟨n, a, b, h⟩
    have hgno : ∀ n, 1 ≤ n → n ≤ 100 →
        ¬ MANDEL.cplx_modulus sqrt (MANDEL.orbit c n) ≥ 100 :=
      fun n a b h => hno n a b ((hiff n a b).1 h)
    have ht := text_eval_no_escape sqrt c hno
    have hg := gfx_eval_no_escape sqrt c hgno
    have hd : (MANDEL.main_eval sqrt c).div ≠ 1 := by
      rw [hg]; simp
    refine ⟨⟨fun h => absurd h hd, fun h => absurd (text_pixel_no_escape sqrt c hno) h⟩,
      fun h => absurd h hd, ?_, ?_, ?_⟩
    · rw [ht, hg]
    · rw [ht, hg]; exact gfx_orbit_eq_text c _
    · rw [ht, hg]; exact hterms _

/-- Witness for C19: `c = (2, 0)` over the reals, whose moduli are `2, 6, 38` and then
at least `1446`. -/
theorem variants_agree_at_two :
    ((MANDEL.main_eval Real.sqrt ({ r := 2, i := 0 } : cplx ℝ)).div = 1 ↔
      mandelbrot.main_pixel Real.sqrt ({ r := 2, i := 0 } : cplx ℝ) ≠ ' ') ∧
    ((MANDEL.main_eval Real.sqrt ({ r := 2, i := 0 } : cplx ℝ)).div = 1 →
      (mandelbrot.main_eval Real.sqrt ({ r := 2, i := 0 } : cplx ℝ)).div
        = (MANDEL.main_eval Real.sqrt ({ r := 2, i := 0 } : cplx ℝ)).iter ∧
      ∃ n, 1 ≤ n ∧ n ≤ 100 ∧
        MANDEL.cplx_modulus Real.sqrt (MANDEL.orbit ({ r := 2, i := 0 } : cplx ℝ) n) ≥ 100 ∧
        (∀ m, 1 ≤ m → m < n →
          ¬ MANDEL.cplx_modulus Real.sqrt
            (MANDEL.orbit ({ r := 2, i := 0 } : cplx ℝ) m) ≥ 100) ∧
        (MANDEL.main_eval Real.sqrt ({ r := 2, i := 0 } : cplx ℝ)).iter
          = ((n - 1 : Nat) : Int)) ∧
    ((MANDEL.main_eval Real.sqrt ({ r := 2, i := 0 } : cplx ℝ)).iter
        = (mandelbrot.main_eval Real.sqrt ({ r := 2, i := 0 } : cplx ℝ)).iter ∧
      (MANDEL.main_eval Real.sqrt ({ r := 2, i := 0 } : cplx ℝ)).r
        = (mandelbrot.main_eval Real.sqrt ({ r := 2, i := 0 } : cplx ℝ)).r ∧
      (MANDEL.main_eval Real.sqrt ({ r := 2, i := 0 } : cplx ℝ)).terms
        = (mandelbrot.main_eval Real.sqrt ({ r := 2, i := 0 } : cplx ℝ)).terms) :=
  variants_agree_without_tie Real.sqrt { r := 2, i := 0 }
    (by rw [real_modulus_on_axis _ (by norm_num)]; norm_num)
    (fun n h1 _ => real_two_no_tie n h1)

end LaterClaims
